import Mathlib

/-!
Verification of the wBus core against its sources.

Shallow embedding conventions:
* JavaScript `number` values are modelled by `ℚ`; every arithmetic step of the
  embedded code is exact rational arithmetic (`Number.isFinite` checks are
  trivially true for `ℚ` and noted where they occur in the source).
* `calculateBearing` (src/Vision/src/shared/utils/geo.ts) is trigonometric
  (`sin`/`cos`/`atan2`); the embedding is parametric in a `bearing` function,
  since every verified property holds for an arbitrary bearing function.
* `getApproxDistanceMeters` involves `cos` and `sqrt`; the animator embedding
  is likewise parametric in an `approxMeters` metric.  For concrete inputs the
  instance `equatorApproxMeters` below agrees with the source metric exactly.
* JavaScript `Map` objects are modelled by association lists in insertion
  order: `Map.set` overwrites the first matching key in place (keeping its
  position) and appends a fresh key at the end, matching JS iteration order.
-/

namespace WBus

/-- A `[lat, lng]` pair (source type `Coordinate = [number, number]`). -/
abbrev Coordinate := ℚ × ℚ

/-- `clamp(value, min, max) = Math.max(min, Math.min(max, value))` from geo.ts.
All of its call sites in `snapPointToPolyline` pass integers
(`Math.round`/`Math.floor` results and segment counts), so it is embedded at
type `ℤ`. -/
def clampI (value lo hi : ℤ) : ℤ := max lo (min hi value)

/-- JavaScript `Math.round`: round half toward positive infinity,
`Math.round x = ⌊x + 0.5⌋`. -/
def jsRound (q : ℚ) : ℤ := ⌊q + 1/2⌋

/-- `SnapOptions` from geo.ts; `undefined` and `null` are both `none`. -/
structure SnapOptions where
  segmentHint : Option ℚ := none
  searchRadius : Option ℚ := none
  minSegmentIndex : Option ℚ := none
deriving DecidableEq

/-- `SnapResult` from geo.ts. -/
structure SnapResult where
  position : Coordinate
  angle : ℚ
  segmentIndex : ℕ
  t : ℚ
deriving DecidableEq

/-- Accumulator of the best-segment scan in `snapPointToPolyline`
(`bestDistSq = none` plays the initial `Infinity`). -/
structure SnapAcc where
  bestDistSq : Option ℚ
  bestPos : Coordinate
  bestIdx : ℕ
  bestT : ℚ
  bestA : Coordinate
  bestB : Coordinate
deriving DecidableEq

/-- `dSq < bestDistSq` where `bestDistSq` may be the initial `Infinity`. -/
def ltInf (d : ℚ) (b : Option ℚ) : Bool :=
  match b with
  | none => true
  | some x => decide (d < x)

/-- One iteration of the scan loop of `snapPointToPolyline` (geo.ts lines
121–143): project the query point on segment `i`, keep it if strictly closer
than the best so far. -/
def snapStep (point : Coordinate) (polyline : List Coordinate)
    (acc : SnapAcc) (i : ℕ) : SnapAcc :=
  let A := polyline.getD i (0, 0)
  let B := polyline.getD (i + 1) (0, 0)
  let APx := point.1 - A.1
  let APy := point.2 - A.2
  let ABx := B.1 - A.1
  let ABy := B.2 - A.2
  let ab2 := ABx * ABx + ABy * ABy
  let t := if 0 < ab2 then max 0 (min 1 ((APx * ABx + APy * ABy) / ab2)) else 0
  let projX := A.1 + ABx * t
  let projY := A.2 + ABy * t
  let dSq := (point.1 - projX) ^ 2 + (point.2 - projY) ^ 2
  if ltInf dSq acc.bestDistSq then
    { bestDistSq := some dSq, bestPos := (projX, projY), bestIdx := i,
      bestT := t, bestA := A, bestB := B }
  else acc

/-- `Math.max(0, Math.floor(options?.searchRadius ?? 0))` from geo.ts. -/
def snapRadius (options : SnapOptions) : ℤ := max 0 ⌊options.searchRadius.getD 0⌋

/-- `clampedHint = hasHint ? clamp(Math.round(hint), 0, lastSegment) : 0`. -/
def snapClampedHint (options : SnapOptions) (last : ℕ) : ℤ :=
  match options.segmentHint with
  | some hint => clampI (jsRound hint) 0 last
  | none => 0

/-- `startIdx` of the scan: `baseStartIdx`, floored at `minSegmentIndex` when
that option is a (finite) number. -/
def snapStartIdx (options : SnapOptions) (last : ℕ) : ℤ :=
  let baseStartIdx : ℤ :=
    match options.segmentHint with
    | some _ => clampI (snapClampedHint options last - snapRadius options) 0 last
    | none => 0
  match options.minSegmentIndex with
  | some m => max baseStartIdx (clampI (jsRound m) 0 last)
  | none => baseStartIdx

/-- `endIdx = hasHint ? clamp(clampedHint + radius, 0, lastSegment) : lastSegment`. -/
def snapEndIdx (options : SnapOptions) (last : ℕ) : ℤ :=
  match options.segmentHint with
  | some _ => clampI (snapClampedHint options last + snapRadius options) 0 last
  | none => last

/-- Initial accumulator of the scan (`bestDistSq = Infinity`, best position
`polyline[0]`, index 0, `t = 0`, degenerate best segment `polyline[0]`). -/
def snapInit (polyline : List Coordinate) : SnapAcc :=
  { bestDistSq := none, bestPos := polyline.getD 0 (0, 0), bestIdx := 0,
    bestT := 0, bestA := polyline.getD 0 (0, 0), bestB := polyline.getD 0 (0, 0) }

/-- The `for (let i = startIdx; i <= endIdx; i++)` scan of
`snapPointToPolyline`, folded over the inclusive index range `[s, e]`. -/
def snapScan (point : Coordinate) (polyline : List Coordinate) (s e : ℕ) : SnapAcc :=
  (List.range' s (e + 1 - s)).foldl (snapStep point polyline) (snapInit polyline)

/-- `snapPointToPolyline` from geo.ts, parametric in the trigonometric
`calculateBearing`.  `hasHint`/`hasMinIdx` are `typeof ... === "number" &&
Number.isFinite(...)`, i.e. `isSome` at type `ℚ`.  The guard
`!polyline || polyline.length < 2` returns the default result. -/
def snapPointToPolyline (bearing : Coordinate → Coordinate → ℚ)
    (point : Coordinate) (polyline : List Coordinate)
    (options : SnapOptions) : SnapResult :=
  if polyline.length < 2 then
    { position := point, angle := 0, segmentIndex := 0, t := 0 }
  else
    let last : ℕ := polyline.length - 2
    let acc := snapScan point polyline (snapStartIdx options last).toNat
      (snapEndIdx options last).toNat
    { position := acc.bestPos, angle := bearing acc.bestA acc.bestB,
      segmentIndex := acc.bestIdx, t := acc.bestT }

/-- Well-formedness of the scan accumulator: index within the segment range
and `t` clamped to `[0, 1]`. -/
def SnapAccOK (last : ℕ) (acc : SnapAcc) : Prop :=
  acc.bestIdx ≤ last ∧ 0 ≤ acc.bestT ∧ acc.bestT ≤ 1

theorem snapStep_ok {point : Coordinate} {polyline : List Coordinate}
    {last : ℕ} {acc : SnapAcc} {i : ℕ} (hi : i ≤ last)
    (hacc : SnapAccOK last acc) : SnapAccOK last (snapStep point polyline acc i) := by
  unfold snapStep
  simp only
  split
  · split
    · exact ⟨hi, le_max_left 0 _, max_le (by norm_num) (min_le_left 1 _)⟩
    · exact hacc
  · split
    · exact ⟨hi, le_refl (0 : ℚ), by norm_num⟩
    · exact hacc

theorem foldl_snapStep_ok {point : Coordinate} {polyline : List Coordinate}
    {last : ℕ} (idxs : List ℕ) (acc : SnapAcc)
    (hidxs : ∀ i ∈ idxs, i ≤ last) (hacc : SnapAccOK last acc) :
    SnapAccOK last (idxs.foldl (snapStep point polyline) acc) := by
  induction idxs generalizing acc with
  | nil => exact hacc
  | cons j rest ih =>
    simp only [List.foldl_cons]
    exact ih _ (fun i hi => hidxs i (List.mem_cons_of_mem _ hi))
      (snapStep_ok (hidxs j (List.mem_cons_self _ _)) hacc)

theorem snapEndIdx_le (options : SnapOptions) (last : ℕ) :
    snapEndIdx options last ≤ (last : ℤ) := by
  unfold snapEndIdx
  cases options.segmentHint with
  | none => exact le_refl _
  | some _ => exact max_le (Int.ofNat_nonneg last) (min_le_left _ _)

theorem snapScan_ok (point : Coordinate) (polyline : List Coordinate)
    {last : ℕ} (s e : ℕ) (he : e ≤ last) :
    SnapAccOK last (snapScan point polyline s e) := by
  unfold snapScan
  refine foldl_snapStep_ok _ _ ?_ ?_
  · intro i hi
    rw [List.mem_range'_1] at hi
    omega
  · exact ⟨Nat.zero_le _, le_refl (0 : ℚ), by norm_num [snapInit]⟩

/-- **C1.** For every polyline with at least 2 vertices, every query point and
every combination of options, `snapPointToPolyline` returns a `SnapResult`
whose `segmentIndex` lies in `[0, polyline.length - 2]` and whose `t` lies in
`[0, 1]`. -/
theorem snapPointToPolyline_bounds (bearing : Coordinate → Coordinate → ℚ)
    (point : Coordinate) (polyline : List Coordinate) (options : SnapOptions)
    (h : 2 ≤ polyline.length) :
    (snapPointToPolyline bearing point polyline options).segmentIndex ≤ polyline.length - 2 ∧
    0 ≤ (snapPointToPolyline bearing point polyline options).t ∧
    (snapPointToPolyline bearing point polyline options).t ≤ 1 := by
  have hacc : SnapAccOK (polyline.length - 2)
      (snapScan point polyline (snapStartIdx options (polyline.length - 2)).toNat
        (snapEndIdx options (polyline.length - 2)).toNat) := by
    refine snapScan_ok point polyline _ _ ?_
    have := snapEndIdx_le options (polyline.length - 2)
    omega
  unfold snapPointToPolyline
  rw [if_neg (by omega)]
  exact ⟨hacc.1, hacc.2.1, hacc.2.2⟩

/-- Concrete evaluation of `snapPointToPolyline_bounds`: snapping the point
`(5/2, 1/10)` onto the 4-point polyline `[(0,0),(1,0),(2,0),(3,0)]` with a
hint.  Discharges every hypothesis of the theorem at this input. -/
theorem snapPointToPolyline_bounds_witness :
    2 ≤ ([((0 : ℚ), (0 : ℚ)), (1, 0), (2, 0), (3, 0)] : List Coordinate).length ∧
    ((snapPointToPolyline (fun _ _ => 0) ((5 : ℚ)/2, (1 : ℚ)/10)
      [((0 : ℚ), (0 : ℚ)), (1, 0), (2, 0), (3, 0)]
      { segmentHint := some 1, searchRadius := some 1 }).segmentIndex ≤
        ([((0 : ℚ), (0 : ℚ)), (1, 0), (2, 0), (3, 0)] : List Coordinate).length - 2 ∧
      0 ≤ (snapPointToPolyline (fun _ _ => 0) ((5 : ℚ)/2, (1 : ℚ)/10)
        [((0 : ℚ), (0 : ℚ)), (1, 0), (2, 0), (3, 0)]
        { segmentHint := some 1, searchRadius := some 1 }).t ∧
      (snapPointToPolyline (fun _ _ => 0) ((5 : ℚ)/2, (1 : ℚ)/10)
        [((0 : ℚ), (0 : ℚ)), (1, 0), (2, 0), (3, 0)]
        { segmentHint := some 1, searchRadius := some 1 }).t ≤ 1) :=
  ⟨by decide, snapPointToPolyline_bounds (fun _ _ => 0) _ _ _ (by decide)⟩

/-! ## The animator (src/Vision/src/features/map/hooks/useAnimatedPosition.ts) -/

/-- `BACKWARD_T_EPSILON = 1e-3` from useAnimatedPosition.ts. -/
def BACKWARD_T_EPSILON : ℚ := 1/1000

/-- `BACKWARD_JITTER_METERS = 12` from useAnimatedPosition.ts. -/
def BACKWARD_JITTER_METERS : ℚ := 12

/-- `isBackwardProgress` from useAnimatedPosition.ts. -/
def isBackwardProgress (startSegIdx : ℕ) (startT : ℚ)
    (endSegIdx : ℕ) (endT : ℚ) : Bool :=
  if endSegIdx < startSegIdx then true
  else if startSegIdx < endSegIdx then false
  else decide (endT < startT - BACKWARD_T_EPSILON)

/-- `buildPolylinePath` from useAnimatedPosition.ts: `[startPos]`, then for a
forward move the vertices `polyline[startSegIdx+1 .. endSegIdx]`, then
`endPos`; equal or backward segments yield `[startPos, endPos]`. -/
def buildPolylinePath (polyline : List Coordinate) (startPos : Coordinate)
    (startSegIdx : ℕ) (endPos : Coordinate) (endSegIdx : ℕ) : List Coordinate :=
  if startSegIdx = endSegIdx then [startPos, endPos]
  else if startSegIdx < endSegIdx then
    startPos :: (((List.range' (startSegIdx + 1) (endSegIdx - startSegIdx)).map
      (fun i => polyline.getD i (0, 0))) ++ [endPos])
  else [startPos, endPos]

theorem map_getD_range' (polyline : List Coordinate) :
    ∀ (n a : ℕ), a + n ≤ polyline.length →
    (List.range' a n).map (fun i => polyline.getD i (0, 0)) =
      (polyline.drop a).take n := by
  intro n
  induction n with
  | zero => intro a _; simp
  | succ m ih =>
    intro a ha
    have hlt : a < polyline.length := by omega
    rw [List.range'_succ, List.map_cons, ih (a + 1) (by omega),
      List.drop_eq_getElem_cons hlt, List.take_succ_cons]
    congr 1
    simp [List.getD_eq_getElem?_getD, List.getElem?_eq_getElem hlt]

/-- **C2 (amended).** For every forward step (`startSegIdx < endSegIdx`,
indices within the polyline) the built path is the ordered list
`[snapped start, polyline vertices at indices startSegIdx+1 .. endSegIdx
inclusive, snapped end]`; in particular a move from segment 2 to segment 5
visits the vertices at indices 3, 4, 5 (not 2, 3, 4, 5) between the two
snapped endpoints. -/
theorem buildPolylinePath_forward (polyline : List Coordinate)
    (startPos endPos : Coordinate) (s e : ℕ)
    (hse : s < e) (he : e < polyline.length) :
    buildPolylinePath polyline startPos s endPos e =
      startPos :: (((polyline.drop (s + 1)).take (e - s)) ++ [endPos]) := by
  unfold buildPolylinePath
  rw [if_neg (by omega), if_pos hse, map_getD_range' polyline (e - s) (s + 1) (by omega)]

/-- The straight 8-vertex polyline used for the C2 instances. -/
def poly8 : List Coordinate :=
  [(0, 0), (1, 0), (2, 0), (3, 0), (4, 0), (5, 0), (6, 0), (7, 0)]

/-- Concrete evaluation of `buildPolylinePath_forward` on `poly8` for the
segment-2 → segment-5 move: the path is
`[start, vertex 3, vertex 4, vertex 5, end]`. -/
theorem buildPolylinePath_forward_witness :
    (2 : ℕ) < 5 ∧ 5 < poly8.length ∧
    buildPolylinePath poly8 ((5 : ℚ)/2, (0 : ℚ)) 2 ((11 : ℚ)/2, (0 : ℚ)) 5 =
      ((5 : ℚ)/2, (0 : ℚ)) :: (((poly8.drop 3).take 3) ++ [((11 : ℚ)/2, (0 : ℚ))]) :=
  ⟨by decide, by decide,
    buildPolylinePath_forward poly8 ((5 : ℚ)/2, (0 : ℚ)) ((11 : ℚ)/2, (0 : ℚ)) 2 5
      (by decide) (by decide)⟩

/-- **C2 counterexample.** With start `(5/2, 0)` snapped on segment 2 (at
`t = 1/2`) and end `(11/2, 0)` snapped on segment 5, the active path is
`[(5/2,0), (3,0), (4,0), (5,0), (11/2,0)]`: it does **not** visit the vertex
at index 2 (`(2,0)`), contradicting the claim that the path visits the
vertices at indices 2, 3, 4, 5.  The trailing conjuncts check that the chosen
endpoints really snap to segments 2 and 5 of `poly8`. -/
theorem buildPolylinePath_c2_counterexample :
    buildPolylinePath poly8 ((5 : ℚ)/2, (0 : ℚ)) 2 ((11 : ℚ)/2, (0 : ℚ)) 5 =
      [((5 : ℚ)/2, (0 : ℚ)), (3, 0), (4, 0), (5, 0), ((11 : ℚ)/2, 0)] ∧
    ((2 : ℚ), (0 : ℚ)) ∉
      buildPolylinePath poly8 ((5 : ℚ)/2, (0 : ℚ)) 2 ((11 : ℚ)/2, (0 : ℚ)) 5 ∧
    (snapPointToPolyline (fun _ _ => 0) ((5 : ℚ)/2, (1 : ℚ)/10) poly8 {}).segmentIndex = 2 ∧
    (snapPointToPolyline (fun _ _ => 0) ((5 : ℚ)/2, (1 : ℚ)/10) poly8 {}).t = 1/2 ∧
    (snapPointToPolyline (fun _ _ => 0) ((5 : ℚ)/2, (1 : ℚ)/10) poly8 {}).position = (5/2, 0) ∧
    (snapPointToPolyline (fun _ _ => 0) ((11 : ℚ)/2, (1 : ℚ)/10) poly8 {}).segmentIndex = 5 ∧
    (snapPointToPolyline (fun _ _ => 0) ((11 : ℚ)/2, (1 : ℚ)/10) poly8 {}).position = (11/2, 0) := by
  refine ⟨?_, ?_, ?_, ?_, ?_, ?_, ?_⟩
  · norm_num [buildPolylinePath, poly8, List.range']
  · norm_num [buildPolylinePath, poly8, List.range']
  all_goals
    norm_num [snapPointToPolyline, snapScan, snapStep, snapInit, ltInf, snapStartIdx,
      snapEndIdx, snapClampedHint, snapRadius, clampI, jsRound, poly8, List.range']

/-- The per-render inputs of `useAnimatedPosition` that change with each
sample: `targetPosition`, `targetAngle` and the `snapIndexHint` option. -/
structure Sample where
  target : Coordinate
  angle : ℚ
  hint : Option ℚ
deriving DecidableEq

/-- The fixed options of the hook relevant to the main animation effect:
`polyline`, `snapToPolyline` and `snapIndexRange` (the search radius). -/
structure AnimConfig where
  polyline : List Coordinate
  shouldSnap : Bool
  snapIndexRange : Option ℚ
deriving DecidableEq

/-- An installed animation session: the refs `animationPathRef`,
`animationStartAngleRef`, `animationEndAngleRef`, `animationEndPosRef`.
`none` models a cancelled / absent `requestAnimationFrame` loop. -/
structure AnimSession where
  path : List Coordinate
  startAngle : ℚ
  endAngle : ℚ
  endPos : Coordinate
deriving DecidableEq

/-- The animator's per-entity state: the `useState` render state
(`visiblePos`, `visibleAngle`) plus the refs of the hook
(`isFirstRender`, `prevTargetRef`, `prevSnapIndexRef`, `currentPosRef`,
`currentAngleRef`, and the animation refs). -/
structure AnimState where
  visiblePos : Coordinate
  visibleAngle : ℚ
  isFirstRender : Bool
  prevTarget : Coordinate
  prevSnapIndex : Option ℚ
  currentPos : Coordinate
  currentAngle : ℚ
  animation : Option AnimSession
deriving DecidableEq

/-- One run of the main animation effect of `useAnimatedPosition`
(useAnimatedPosition.ts lines 236–327) on a new render with inputs `sample`,
parametric in `bearing` (the trigonometric `calculateBearing`) and
`approxMeters` (the `cos`/`sqrt`-based `getApproxDistanceMeters`).

The effect itself mutates the visible state only via `setState` calls that
happen synchronously inside the effect; a started animation session is
recorded in `animation` and its asynchronous `tick` frames are not part of
this step. -/
def animStep (bearing : Coordinate → Coordinate → ℚ)
    (approxMeters : Coordinate → Coordinate → ℚ)
    (cfg : AnimConfig) (sample : Sample) (st : AnimState) : AnimState :=
  -- First render: snap immediately, no animation.
  if st.isFirstRender then
    if cfg.shouldSnap ∧ 2 ≤ cfg.polyline.length then
      let snapped := snapPointToPolyline bearing sample.target cfg.polyline
        { segmentHint := sample.hint, searchRadius := cfg.snapIndexRange }
      { visiblePos := snapped.position, visibleAngle := sample.angle,
        isFirstRender := false, prevTarget := sample.target,
        prevSnapIndex := some (sample.hint.getD (snapped.segmentIndex : ℚ)),
        currentPos := snapped.position, currentAngle := sample.angle,
        animation := st.animation }
    else
      { visiblePos := sample.target, visibleAngle := sample.angle,
        isFirstRender := false, prevTarget := sample.target,
        prevSnapIndex := sample.hint,
        currentPos := sample.target, currentAngle := sample.angle,
        animation := st.animation }
  -- Same position as the previous render: update the angle only.
  else if sample.target = st.prevTarget then
    { st with currentAngle := sample.angle, visibleAngle := sample.angle,
              prevSnapIndex :=
                match sample.hint with
                | some h => some h
                | none => st.prevSnapIndex }
  else
    -- Cancel any running animation, record the new target.
    let st1 : AnimState := { st with animation := none, prevTarget := sample.target }
    if cfg.shouldSnap ∧ 2 ≤ cfg.polyline.length then
      let startSnapped := snapPointToPolyline bearing st.currentPos cfg.polyline
        { segmentHint := st.prevSnapIndex, searchRadius := cfg.snapIndexRange }
      let endSnapped := snapPointToPolyline bearing sample.target cfg.polyline
        { segmentHint := sample.hint, searchRadius := cfg.snapIndexRange }
      if isBackwardProgress startSnapped.segmentIndex startSnapped.t
          endSnapped.segmentIndex endSnapped.t then
        -- Small jitter: ignore.  Large jump: teleport immediately.
        if approxMeters startSnapped.position endSnapped.position ≤ BACKWARD_JITTER_METERS then
          st1
        else
          { st1 with currentPos := endSnapped.position,
                     currentAngle := endSnapped.angle,
                     prevSnapIndex := some (sample.hint.getD (endSnapped.segmentIndex : ℚ)),
                     visiblePos := endSnapped.position,
                     visibleAngle := endSnapped.angle }
      else
        { st1 with
            prevSnapIndex := some (sample.hint.getD (endSnapped.segmentIndex : ℚ)),
            animation := some
              { path := buildPolylinePath cfg.polyline startSnapped.position
                  startSnapped.segmentIndex endSnapped.position endSnapped.segmentIndex,
                startAngle := st.currentAngle,
                endAngle := endSnapped.angle,
                endPos := endSnapped.position } }
    else
      { st1 with
          animation := some
            { path := [st.currentPos, sample.target],
              startAngle := st.currentAngle,
              endAngle := sample.angle,
              endPos := sample.target } }

/-- `getApproxDistanceMeters` specialised to two points on the equator
(latitude 0): there `dLat = 0` and `lngScale = cos 0 = 1`, so the source
metric is exactly `|Δlng| * 111000`.  Used to instantiate the parametric
`approxMeters` on concrete equatorial inputs, where it agrees with the
source's value exactly. -/
def equatorApproxMeters (p1 p2 : Coordinate) : ℚ :=
  |p2.2 - p1.2| * 111000

/-- **C3 (amended).** For a usable polyline, when a new sample (different
from the previously recorded target) snaps backward of the current position
by at most the jitter threshold, the animator discards the position update:
the resulting state is the old state except that any running animation is
cancelled and the last-received target is recorded.  Feeding the same
slightly-behind sample twice leaves the current and displayed positions
identical both times (the second feed only re-applies the sample's raw angle
and hint). -/
theorem animStep_backward_small_discards
    (bearing approxMeters : Coordinate → Coordinate → ℚ)
    (cfg : AnimConfig) (sample : Sample) (st : AnimState)
    (hsnap : cfg.shouldSnap = true) (hpoly : 2 ≤ cfg.polyline.length)
    (hfirst : st.isFirstRender = false) (hnew : sample.target ≠ st.prevTarget)
    (hback : isBackwardProgress
      (snapPointToPolyline bearing st.currentPos cfg.polyline
        { segmentHint := st.prevSnapIndex, searchRadius := cfg.snapIndexRange }).segmentIndex
      (snapPointToPolyline bearing st.currentPos cfg.polyline
        { segmentHint := st.prevSnapIndex, searchRadius := cfg.snapIndexRange }).t
      (snapPointToPolyline bearing sample.target cfg.polyline
        { segmentHint := sample.hint, searchRadius := cfg.snapIndexRange }).segmentIndex
      (snapPointToPolyline bearing sample.target cfg.polyline
        { segmentHint := sample.hint, searchRadius := cfg.snapIndexRange }).t = true)
    (hsmall : approxMeters
      (snapPointToPolyline bearing st.currentPos cfg.polyline
        { segmentHint := st.prevSnapIndex, searchRadius := cfg.snapIndexRange }).position
      (snapPointToPolyline bearing sample.target cfg.polyline
        { segmentHint := sample.hint, searchRadius := cfg.snapIndexRange }).position
      ≤ BACKWARD_JITTER_METERS) :
    animStep bearing approxMeters cfg sample st =
      { st with animation := none, prevTarget := sample.target } ∧
    (animStep bearing approxMeters cfg sample
      (animStep bearing approxMeters cfg sample st)).currentPos = st.currentPos ∧
    (animStep bearing approxMeters cfg sample
      (animStep bearing approxMeters cfg sample st)).visiblePos = st.visiblePos := by
  have h1 : animStep bearing approxMeters cfg sample st =
      { st with animation := none, prevTarget := sample.target } := by
    unfold animStep
    rw [if_neg (by simp [hfirst]), if_neg hnew]
    simp only
    rw [if_pos ⟨hsnap, hpoly⟩, if_pos hback, if_pos hsmall]
  refine ⟨h1, ?_, ?_⟩ <;> rw [h1] <;> simp [animStep, hfirst]

/-- The 4-vertex equatorial polyline for the C3 instances (all latitudes 0,
longitudes 0, 0.01, 0.02, 0.03 degrees: segments ≈ 1110 m long). -/
def eqPoly4 : List Coordinate := [(0, 0), (0, 1/100), (0, 2/100), (0, 3/100)]

/-- Animator options for the C3 instances. -/
def c3Cfg : AnimConfig :=
  { polyline := eqPoly4, shouldSnap := true, snapIndexRange := none }

/-- A sample 0.0001° (≈ 11.1 m < 12 m) behind the current position. -/
def c3Sample : Sample := { target := (0, 199/10000), angle := 0, hint := none }

/-- Steady state of the animator: current position at vertex 2 of `eqPoly4`,
displayed angle 90. -/
def c3State : AnimState :=
  { visiblePos := (0, 2/100), visibleAngle := 90, isFirstRender := false,
    prevTarget := (0, 2/100), prevSnapIndex := none,
    currentPos := (0, 2/100), currentAngle := 90, animation := none }

/-- Concrete evaluation of `animStep_backward_small_discards` on the
equatorial scenario `c3State` / `c3Sample`, discharging every hypothesis. -/
theorem animStep_backward_small_discards_witness :
    c3Cfg.shouldSnap = true ∧ 2 ≤ c3Cfg.polyline.length ∧
    c3State.isFirstRender = false ∧ c3Sample.target ≠ c3State.prevTarget ∧
    (animStep (fun _ _ => 0) equatorApproxMeters c3Cfg c3Sample c3State =
      { c3State with animation := none, prevTarget := c3Sample.target } ∧
    (animStep (fun _ _ => 0) equatorApproxMeters c3Cfg c3Sample
      (animStep (fun _ _ => 0) equatorApproxMeters c3Cfg c3Sample c3State)).currentPos =
        c3State.currentPos ∧
    (animStep (fun _ _ => 0) equatorApproxMeters c3Cfg c3Sample
      (animStep (fun _ _ => 0) equatorApproxMeters c3Cfg c3Sample c3State)).visiblePos =
        c3State.visiblePos) := by
  have habs1 : |(1 : ℚ) / 10000| = 1 / 10000 := abs_of_nonneg (by norm_num)
  refine ⟨rfl, by norm_num [c3Cfg, eqPoly4], rfl, by norm_num [c3Sample, c3State], ?_⟩
  refine animStep_backward_small_discards (fun _ _ => 0) equatorApproxMeters
    c3Cfg c3Sample c3State rfl (by norm_num [c3Cfg, eqPoly4]) rfl
    (by norm_num [c3Sample, c3State]) ?_ ?_ <;>
  norm_num [c3Cfg, c3Sample, c3State, eqPoly4, snapPointToPolyline, snapScan, snapStep,
    snapInit, ltInf, snapStartIdx, snapEndIdx, snapClampedHint, snapRadius, clampI,
    jsRound, isBackwardProgress, BACKWARD_T_EPSILON, BACKWARD_JITTER_METERS,
    equatorApproxMeters, List.range', habs1]

/-- **C3 counterexample.** In the backward-small scenario
`c3State` / `c3Sample` (backward by ≈ 11.1 m ≤ 12 m), the animator's state is
*not* left entirely unchanged — `prevTargetRef` is updated to the discarded
sample — and feeding the same slightly-behind sample twice is *not*
idempotent: the second feed takes the same-position branch and overwrites the
displayed angle (90 → 0) and the current angle.  The first two conjuncts
check that the backward-small branch really applies (the bearing parameter
does not influence any of these fields). -/
theorem animStep_c3_counterexample :
    isBackwardProgress
      (snapPointToPolyline (fun _ _ => 0) c3State.currentPos c3Cfg.polyline
        { segmentHint := c3State.prevSnapIndex, searchRadius := c3Cfg.snapIndexRange }).segmentIndex
      (snapPointToPolyline (fun _ _ => 0) c3State.currentPos c3Cfg.polyline
        { segmentHint := c3State.prevSnapIndex, searchRadius := c3Cfg.snapIndexRange }).t
      (snapPointToPolyline (fun _ _ => 0) c3Sample.target c3Cfg.polyline
        { segmentHint := c3Sample.hint, searchRadius := c3Cfg.snapIndexRange }).segmentIndex
      (snapPointToPolyline (fun _ _ => 0) c3Sample.target c3Cfg.polyline
        { segmentHint := c3Sample.hint, searchRadius := c3Cfg.snapIndexRange }).t = true ∧
    equatorApproxMeters
      (snapPointToPolyline (fun _ _ => 0) c3State.currentPos c3Cfg.polyline
        { segmentHint := c3State.prevSnapIndex, searchRadius := c3Cfg.snapIndexRange }).position
      (snapPointToPolyline (fun _ _ => 0) c3Sample.target c3Cfg.polyline
        { segmentHint := c3Sample.hint, searchRadius := c3Cfg.snapIndexRange }).position
      ≤ BACKWARD_JITTER_METERS ∧
    (animStep (fun _ _ => 0) equatorApproxMeters c3Cfg c3Sample c3State).prevTarget ≠
      c3State.prevTarget ∧
    (animStep (fun _ _ => 0) equatorApproxMeters c3Cfg c3Sample
      (animStep (fun _ _ => 0) equatorApproxMeters c3Cfg c3Sample c3State)).visibleAngle ≠
      (animStep (fun _ _ => 0) equatorApproxMeters c3Cfg c3Sample c3State).visibleAngle := by
  have habs1 : |(1 : ℚ) / 10000| = 1 / 10000 := abs_of_nonneg (by norm_num)
  have e1 : animStep (fun _ _ => 0) equatorApproxMeters c3Cfg c3Sample c3State =
      { c3State with animation := none, prevTarget := (0, 199/10000) } := by
    norm_num [c3Cfg, c3Sample, c3State, eqPoly4, animStep, snapPointToPolyline, snapScan,
      snapStep, snapInit, ltInf, snapStartIdx, snapEndIdx, snapClampedHint, snapRadius,
      clampI, jsRound, isBackwardProgress, BACKWARD_T_EPSILON, BACKWARD_JITTER_METERS,
      equatorApproxMeters, List.range', habs1]
  have e2 : animStep (fun _ _ => 0) equatorApproxMeters c3Cfg c3Sample
      ({ c3State with animation := none, prevTarget := (0, 199/10000) } : AnimState) =
      { c3State with animation := none, prevTarget := (0, 199/10000), visibleAngle := 0, currentAngle := 0 } := by
    norm_num [animStep, c3Sample, c3State]
  refine ⟨?_, ?_, ?_, ?_⟩
  · norm_num [c3Cfg, c3Sample, c3State, eqPoly4, snapPointToPolyline, snapScan,
      snapStep, snapInit, ltInf, snapStartIdx, snapEndIdx, snapClampedHint, snapRadius,
      clampI, jsRound, isBackwardProgress, BACKWARD_T_EPSILON, List.range']
  · norm_num [c3Cfg, c3Sample, c3State, eqPoly4, snapPointToPolyline, snapScan,
      snapStep, snapInit, ltInf, snapStartIdx, snapEndIdx, snapClampedHint, snapRadius,
      clampI, jsRound, BACKWARD_JITTER_METERS, equatorApproxMeters, List.range', habs1]
  · rw [e1]
    norm_num [c3State]
  · rw [e1, e2]
    norm_num [c3State]

/-- **C4 (amended).** For a usable polyline, when a new sample snaps backward
of the current position by more than the jitter threshold, the animator
teleports instantly: the resulting current and displayed position and angle
equal the new target's snapped position and angle exactly, no animation
session is started, and the stored segment hint is reset to the sample's
provided hint when present, otherwise to the new segment index. -/
theorem animStep_backward_large_teleports
    (bearing approxMeters : Coordinate → Coordinate → ℚ)
    (cfg : AnimConfig) (sample : Sample) (st : AnimState)
    (hsnap : cfg.shouldSnap = true) (hpoly : 2 ≤ cfg.polyline.length)
    (hfirst : st.isFirstRender = false) (hnew : sample.target ≠ st.prevTarget)
    (hback : isBackwardProgress
      (snapPointToPolyline bearing st.currentPos cfg.polyline
        { segmentHint := st.prevSnapIndex, searchRadius := cfg.snapIndexRange }).segmentIndex
      (snapPointToPolyline bearing st.currentPos cfg.polyline
        { segmentHint := st.prevSnapIndex, searchRadius := cfg.snapIndexRange }).t
      (snapPointToPolyline bearing sample.target cfg.polyline
        { segmentHint := sample.hint, searchRadius := cfg.snapIndexRange }).segmentIndex
      (snapPointToPolyline bearing sample.target cfg.polyline
        { segmentHint := sample.hint, searchRadius := cfg.snapIndexRange }).t = true)
    (hlarge : BACKWARD_JITTER_METERS < approxMeters
      (snapPointToPolyline bearing st.currentPos cfg.polyline
        { segmentHint := st.prevSnapIndex, searchRadius := cfg.snapIndexRange }).position
      (snapPointToPolyline bearing sample.target cfg.polyline
        { segmentHint := sample.hint, searchRadius := cfg.snapIndexRange }).position) :
    animStep bearing approxMeters cfg sample st =
      { st with
          animation := none, prevTarget := sample.target,
          currentPos := (snapPointToPolyline bearing sample.target cfg.polyline
            { segmentHint := sample.hint, searchRadius := cfg.snapIndexRange }).position,
          currentAngle := (snapPointToPolyline bearing sample.target cfg.polyline
            { segmentHint := sample.hint, searchRadius := cfg.snapIndexRange }).angle,
          visiblePos := (snapPointToPolyline bearing sample.target cfg.polyline
            { segmentHint := sample.hint, searchRadius := cfg.snapIndexRange }).position,
          visibleAngle := (snapPointToPolyline bearing sample.target cfg.polyline
            { segmentHint := sample.hint, searchRadius := cfg.snapIndexRange }).angle,
          prevSnapIndex := some (sample.hint.getD
            ((snapPointToPolyline bearing sample.target cfg.polyline
              { segmentHint := sample.hint, searchRadius := cfg.snapIndexRange }).segmentIndex : ℚ)) } := by
  unfold animStep
  rw [if_neg (by simp [hfirst]), if_neg hnew]
  simp only
  rw [if_pos ⟨hsnap, hpoly⟩, if_pos hback, if_neg (not_le.mpr hlarge)]

/-- The 8-vertex equatorial polyline for the C4 instances. -/
def eqPoly8 : List Coordinate :=
  [(0, 0), (0, 1/100), (0, 2/100), (0, 3/100), (0, 4/100), (0, 5/100), (0, 6/100), (0, 7/100)]

/-- Animator options for the C4 instances: snapping with search radius 1. -/
def c4Cfg : AnimConfig :=
  { polyline := eqPoly8, shouldSnap := true, snapIndexRange := some 1 }

/-- Steady state of the animator: current position mid-segment 5 of
`eqPoly8`, stored hint 5. -/
def c4State : AnimState :=
  { visiblePos := (0, 55/1000), visibleAngle := 0, isFirstRender := false,
    prevTarget := (0, 55/1000), prevSnapIndex := some 5,
    currentPos := (0, 55/1000), currentAngle := 0, animation := none }

/-- A sample ≈ 3330 m behind the current position, carrying hint 3; with
search radius 1 its snap window is segments `[2, 4]` and the best segment is
2 — so the snapped index (2) differs from the provided hint (3). -/
def c4Sample : Sample := { target := (0, 25/1000), angle := 0, hint := some 3 }

/-- Unfolding of `snapPointToPolyline` for a usable polyline once the scan
window `[s, e]` has been computed. -/
theorem snapEval_aux (bearing : Coordinate → Coordinate → ℚ)
    (point : Coordinate) (polyline : List Coordinate) (options : SnapOptions)
    (s e : ℕ) (h2 : ¬ polyline.length < 2)
    (hs : (snapStartIdx options (polyline.length - 2)).toNat = s)
    (he : (snapEndIdx options (polyline.length - 2)).toNat = e) :
    snapPointToPolyline bearing point polyline options =
      { position := (snapScan point polyline s e).bestPos,
        angle := bearing (snapScan point polyline s e).bestA (snapScan point polyline s e).bestB,
        segmentIndex := (snapScan point polyline s e).bestIdx,
        t := (snapScan point polyline s e).bestT } := by
  unfold snapPointToPolyline
  rw [if_neg h2]
  simp only
  rw [hs, he]

set_option maxHeartbeats 800000 in
/-- Evaluation of the start snap of the C4 scenario: window `[4, 6]`, best
segment 5 at `t = 1/2`. -/
theorem c4StartSnap_eval :
    snapPointToPolyline (fun _ _ => 0) c4State.currentPos c4Cfg.polyline
      { segmentHint := c4State.prevSnapIndex, searchRadius := c4Cfg.snapIndexRange } =
    { position := (0, 11/200), angle := 0, segmentIndex := 5, t := 1/2 } := by
  have hs : (snapStartIdx
      { segmentHint := c4State.prevSnapIndex, searchRadius := c4Cfg.snapIndexRange }
      (c4Cfg.polyline.length - 2)).toNat = 4 := by
    have h : snapStartIdx
        { segmentHint := c4State.prevSnapIndex, searchRadius := c4Cfg.snapIndexRange }
        (c4Cfg.polyline.length - 2) = 4 := by
      norm_num [c4State, c4Cfg, eqPoly8, snapStartIdx, snapClampedHint, snapRadius,
        clampI, jsRound]
    rw [h]
    rfl
  have he : (snapEndIdx
      { segmentHint := c4State.prevSnapIndex, searchRadius := c4Cfg.snapIndexRange }
      (c4Cfg.polyline.length - 2)).toNat = 6 := by
    have h : snapEndIdx
        { segmentHint := c4State.prevSnapIndex, searchRadius := c4Cfg.snapIndexRange }
        (c4Cfg.polyline.length - 2) = 6 := by
      norm_num [c4State, c4Cfg, eqPoly8, snapEndIdx, snapClampedHint, snapRadius,
        clampI, jsRound]
    rw [h]
    rfl
  rw [snapEval_aux (fun _ _ => 0) c4State.currentPos c4Cfg.polyline _ 4 6
    (by norm_num [c4Cfg, eqPoly8]) hs he]
  norm_num [snapScan, snapStep, snapInit, ltInf, c4State, c4Cfg, eqPoly8, List.range']

set_option maxHeartbeats 800000 in
/-- Evaluation of the target snap of the C4 scenario: window `[2, 4]`, best
segment 2 at `t = 1/2` — the snapped index 2 differs from the hint 3. -/
theorem c4EndSnap_eval :
    snapPointToPolyline (fun _ _ => 0) c4Sample.target c4Cfg.polyline
      { segmentHint := c4Sample.hint, searchRadius := c4Cfg.snapIndexRange } =
    { position := (0, 1/40), angle := 0, segmentIndex := 2, t := 1/2 } := by
  have hs : (snapStartIdx
      { segmentHint := c4Sample.hint, searchRadius := c4Cfg.snapIndexRange }
      (c4Cfg.polyline.length - 2)).toNat = 2 := by
    have h : snapStartIdx
        { segmentHint := c4Sample.hint, searchRadius := c4Cfg.snapIndexRange }
        (c4Cfg.polyline.length - 2) = 2 := by
      norm_num [c4Sample, c4Cfg, eqPoly8, snapStartIdx, snapClampedHint, snapRadius,
        clampI, jsRound]
    rw [h]
    rfl
  have he : (snapEndIdx
      { segmentHint := c4Sample.hint, searchRadius := c4Cfg.snapIndexRange }
      (c4Cfg.polyline.length - 2)).toNat = 4 := by
    have h : snapEndIdx
        { segmentHint := c4Sample.hint, searchRadius := c4Cfg.snapIndexRange }
        (c4Cfg.polyline.length - 2) = 4 := by
      norm_num [c4Sample, c4Cfg, eqPoly8, snapEndIdx, snapClampedHint, snapRadius,
        clampI, jsRound]
    rw [h]
    rfl
  rw [snapEval_aux (fun _ _ => 0) c4Sample.target c4Cfg.polyline _ 2 4
    (by norm_num [c4Cfg, eqPoly8]) hs he]
  norm_num [snapScan, snapStep, snapInit, ltInf, c4Sample, c4Cfg, eqPoly8, List.range']

/-- The C4 scenario really is backward (end segment 2 < start segment 5). -/
theorem c4_isBackward :
    isBackwardProgress
      (snapPointToPolyline (fun _ _ => 0) c4State.currentPos c4Cfg.polyline
        { segmentHint := c4State.prevSnapIndex, searchRadius := c4Cfg.snapIndexRange }).segmentIndex
      (snapPointToPolyline (fun _ _ => 0) c4State.currentPos c4Cfg.polyline
        { segmentHint := c4State.prevSnapIndex, searchRadius := c4Cfg.snapIndexRange }).t
      (snapPointToPolyline (fun _ _ => 0) c4Sample.target c4Cfg.polyline
        { segmentHint := c4Sample.hint, searchRadius := c4Cfg.snapIndexRange }).segmentIndex
      (snapPointToPolyline (fun _ _ => 0) c4Sample.target c4Cfg.polyline
        { segmentHint := c4Sample.hint, searchRadius := c4Cfg.snapIndexRange }).t = true := by
  rw [c4StartSnap_eval, c4EndSnap_eval]
  norm_num [isBackwardProgress]

/-- The C4 scenario's backward jump measures 3330 m > 12 m. -/
theorem c4_isLarge :
    BACKWARD_JITTER_METERS < equatorApproxMeters
      (snapPointToPolyline (fun _ _ => 0) c4State.currentPos c4Cfg.polyline
        { segmentHint := c4State.prevSnapIndex, searchRadius := c4Cfg.snapIndexRange }).position
      (snapPointToPolyline (fun _ _ => 0) c4Sample.target c4Cfg.polyline
        { segmentHint := c4Sample.hint, searchRadius := c4Cfg.snapIndexRange }).position := by
  rw [c4StartSnap_eval, c4EndSnap_eval]
  unfold equatorApproxMeters BACKWARD_JITTER_METERS
  rw [show ((0 : ℚ), (1 : ℚ)/40).2 - ((0 : ℚ), (11 : ℚ)/200).2 = -(3/100) by norm_num,
    abs_neg, abs_of_nonneg (by norm_num : (0 : ℚ) ≤ 3/100)]
  norm_num

/-- Concrete evaluation of `animStep_backward_large_teleports` on the
equatorial scenario `c4State` / `c4Sample`, discharging every hypothesis. -/
theorem animStep_backward_large_teleports_witness :
    c4Cfg.shouldSnap = true ∧ 2 ≤ c4Cfg.polyline.length ∧
    c4State.isFirstRender = false ∧ c4Sample.target ≠ c4State.prevTarget ∧
    animStep (fun _ _ => 0) equatorApproxMeters c4Cfg c4Sample c4State =
      { c4State with animation := none, prevTarget := c4Sample.target, currentPos := (snapPointToPolyline (fun _ _ => 0) c4Sample.target c4Cfg.polyline { segmentHint := c4Sample.hint, searchRadius := c4Cfg.snapIndexRange }).position, currentAngle := (snapPointToPolyline (fun _ _ => 0) c4Sample.target c4Cfg.polyline { segmentHint := c4Sample.hint, searchRadius := c4Cfg.snapIndexRange }).angle, visiblePos := (snapPointToPolyline (fun _ _ => 0) c4Sample.target c4Cfg.polyline { segmentHint := c4Sample.hint, searchRadius := c4Cfg.snapIndexRange }).position, visibleAngle := (snapPointToPolyline (fun _ _ => 0) c4Sample.target c4Cfg.polyline { segmentHint := c4Sample.hint, searchRadius := c4Cfg.snapIndexRange }).angle, prevSnapIndex := some (c4Sample.hint.getD ((snapPointToPolyline (fun _ _ => 0) c4Sample.target c4Cfg.polyline { segmentHint := c4Sample.hint, searchRadius := c4Cfg.snapIndexRange }).segmentIndex : ℚ)) } := by
  exact ⟨rfl, by norm_num [c4Cfg, eqPoly8], rfl, by norm_num [c4Sample, c4State],
    animStep_backward_large_teleports (fun _ _ => 0) equatorApproxMeters
      c4Cfg c4Sample c4State rfl (by norm_num [c4Cfg, eqPoly8]) rfl
      (by norm_num [c4Sample, c4State]) c4_isBackward c4_isLarge⟩

/-- **C4 counterexample.** In the backward-large scenario
`c4State` / `c4Sample` the teleport does occur (the resulting current
position is the snapped target, ≈ 3330 m > 12 m behind), but the stored
segment hint is *not* reset to the new segment index: the sample provides
hint 3, the new snapped segment index is 2, and the code stores
`snapIndexHint ?? endSnapped.segmentIndex = 3`.  (The bearing parameter does
not influence any of these fields.) -/
theorem animStep_c4_counterexample :
    isBackwardProgress
      (snapPointToPolyline (fun _ _ => 0) c4State.currentPos c4Cfg.polyline
        { segmentHint := c4State.prevSnapIndex, searchRadius := c4Cfg.snapIndexRange }).segmentIndex
      (snapPointToPolyline (fun _ _ => 0) c4State.currentPos c4Cfg.polyline
        { segmentHint := c4State.prevSnapIndex, searchRadius := c4Cfg.snapIndexRange }).t
      (snapPointToPolyline (fun _ _ => 0) c4Sample.target c4Cfg.polyline
        { segmentHint := c4Sample.hint, searchRadius := c4Cfg.snapIndexRange }).segmentIndex
      (snapPointToPolyline (fun _ _ => 0) c4Sample.target c4Cfg.polyline
        { segmentHint := c4Sample.hint, searchRadius := c4Cfg.snapIndexRange }).t = true ∧
    BACKWARD_JITTER_METERS < equatorApproxMeters
      (snapPointToPolyline (fun _ _ => 0) c4State.currentPos c4Cfg.polyline
        { segmentHint := c4State.prevSnapIndex, searchRadius := c4Cfg.snapIndexRange }).position
      (snapPointToPolyline (fun _ _ => 0) c4Sample.target c4Cfg.polyline
        { segmentHint := c4Sample.hint, searchRadius := c4Cfg.snapIndexRange }).position ∧
    (snapPointToPolyline (fun _ _ => 0) c4Sample.target c4Cfg.polyline
      { segmentHint := c4Sample.hint, searchRadius := c4Cfg.snapIndexRange }).segmentIndex = 2 ∧
    (animStep (fun _ _ => 0) equatorApproxMeters c4Cfg c4Sample c4State).currentPos =
      (snapPointToPolyline (fun _ _ => 0) c4Sample.target c4Cfg.polyline
        { segmentHint := c4Sample.hint, searchRadius := c4Cfg.snapIndexRange }).position ∧
    (animStep (fun _ _ => 0) equatorApproxMeters c4Cfg c4Sample c4State).prevSnapIndex = some 3 ∧
    (animStep (fun _ _ => 0) equatorApproxMeters c4Cfg c4Sample c4State).prevSnapIndex ≠
      some ((snapPointToPolyline (fun _ _ => 0) c4Sample.target c4Cfg.polyline
        { segmentHint := c4Sample.hint, searchRadius := c4Cfg.snapIndexRange }).segmentIndex : ℚ) := by
  have estep : animStep (fun _ _ => 0) equatorApproxMeters c4Cfg c4Sample c4State =
      { c4State with animation := none, prevTarget := c4Sample.target, currentPos := (0, 1/40), currentAngle := 0, visiblePos := (0, 1/40), visibleAngle := 0, prevSnapIndex := some 3 } := by
    unfold animStep
    rw [if_neg (by norm_num [c4State]), if_neg (by norm_num [c4Sample, c4State])]
    simp only
    rw [if_pos ⟨rfl, by norm_num [c4Cfg, eqPoly8]⟩, if_pos c4_isBackward,
      if_neg (not_le.mpr c4_isLarge), c4EndSnap_eval]
    norm_num [c4Sample]
  refine ⟨c4_isBackward, c4_isLarge, ?_, ?_, ?_, ?_⟩
  · rw [c4EndSnap_eval]
  · rw [estep, c4EndSnap_eval]
  · rw [estep]
  · rw [estep, c4EndSnap_eval]
    norm_num

/-! ## The direction resolver (src/Vision/src/entities/station/stopFiltering.ts) -/

/-- A per-route stop-sequence entry for a node: `{routeid, nodeord, updowncd}`.
`Direction.UP = 1`, `Direction.DOWN = 0` (route/types.ts). -/
structure SequenceCandidate where
  routeid : String
  nodeord : ℚ
  updowncd : ℤ
deriving DecidableEq

/-- `DirectionLookup` from stopFiltering.ts; the JS `Map`s are association
lists with unique keys. -/
structure DirectionLookup where
  sequenceMap : List (String × List SequenceCandidate)
  routeMixedDirMap : List (String × Bool)
  fallbackDirMap : List (String × ℤ)
  activeRouteIds : List String
deriving DecidableEq

/-- JS whitespace test for `String.prototype.trim` (restricted to the ASCII
whitespace characters that can occur in node ids: space, tab, LF, CR). -/
def isJsWhitespace (c : Char) : Bool :=
  c = ' ' ∨ c = '\t' ∨ c = '\n' ∨ c = '\r'

/-- JS `String.prototype.trim`: strip leading and trailing whitespace. -/
def jsTrim (s : String) : String :=
  ⟨((s.data.dropWhile isJsWhitespace).reverse.dropWhile isJsWhitespace).reverse⟩

/-- JS `Map.get`: the value of the (unique) matching key, else `undefined`. -/
def mapGet {K V : Type} [BEq K] (m : List (K × V)) (k : K) : Option V :=
  (m.find? (fun p => p.1 == k)).map (fun p => p.2)

/-- One step of the `pool.reduce` in `resolveDirection`: keep the candidate
with strictly smaller `|nodeord - targetOrd|`; on an exact tie keep the one
with the smaller `nodeord`. -/
def closerCandidate (targetOrd : ℚ) (best curr : SequenceCandidate) : SequenceCandidate :=
  if |curr.nodeord - targetOrd| < |best.nodeord - targetOrd| then curr
  else if |curr.nodeord - targetOrd| = |best.nodeord - targetOrd| ∧ curr.nodeord < best.nodeord then curr
  else best

/-- The scoped candidate pool of `resolveDirection`: filter by the explicit
`routeid` when one is given (JS truthiness: the empty string is falsy),
else by the active route ids; fall back to all candidates when the scoped
list is empty. -/
def scopedPool (lookup : DirectionLookup) (candidates : List SequenceCandidate)
    (routeid : Option String) : List SequenceCandidate :=
  let scopedCandidates :=
    match routeid with
    | some r =>
      if r ≠ "" then candidates.filter (fun c => c.routeid == r)
      else candidates.filter (fun c => lookup.activeRouteIds.contains c.routeid)
    | none => candidates.filter (fun c => lookup.activeRouteIds.contains c.routeid)
  if scopedCandidates.length > 0 then scopedCandidates else candidates

/-- The direction derived from the winning candidate: if its route is not
mixed-direction and a fallback direction exists for it, the fallback;
otherwise the candidate's own `updowncd` as a direction code
(`0 = DOWN`, anything else `= UP = 1`). -/
def candidateDirection (lookup : DirectionLookup) (c : SequenceCandidate) : Option ℤ :=
  let isMixed := (mapGet lookup.routeMixedDirMap c.routeid).getD false
  let fallback := mapGet lookup.fallbackDirMap c.routeid
  if ¬ isMixed ∧ fallback.isSome then fallback
  else some (if c.updowncd = 0 then 0 else 1)

/-- `resolveDirection` from stopFiltering.ts, with the env-derived
`ALWAYS_UPWARD_NODEIDS` set passed as `alwaysUpward`.
`Number.isFinite(targetOrd)` is trivially true at type `ℚ`; `null` and
`undefined` arguments are `none`. -/
def resolveDirection (alwaysUpward : List String) (lookup : DirectionLookup)
    (nodeid : Option String) (nodeord : ℚ) (routeid : Option String) : Option ℤ :=
  match nodeid with
  | none => none
  | some s =>
    let normalizedNodeId := jsTrim s
    if normalizedNodeId = "" then none
    else if alwaysUpward.contains normalizedNodeId then some 1
    else
      match mapGet lookup.sequenceMap normalizedNodeId with
      | none => none
      | some candidates =>
        if candidates.isEmpty then none
        else
          match scopedPool lookup candidates routeid with
          | [] => none  -- `if (!bestMatch) return null` (pool[0] undefined)
          | p0 :: _ =>
            let pool := scopedPool lookup candidates routeid
            let exactMatch := pool.find? (fun c => c.nodeord == nodeord)
            let bestMatch := exactMatch.getD (pool.foldl (closerCandidate nodeord) p0)
            candidateDirection lookup bestMatch

/-- `CloserLE t a b`: `a` is at least as good as `b` for the
`closerCandidate` ordering (smaller distance to `t`, ties toward the smaller
`nodeord`). -/
def CloserLE (t : ℚ) (a b : SequenceCandidate) : Prop :=
  |a.nodeord - t| < |b.nodeord - t| ∨
    (|a.nodeord - t| = |b.nodeord - t| ∧ a.nodeord ≤ b.nodeord)

theorem closerLE_refl (t : ℚ) (a : SequenceCandidate) : CloserLE t a a :=
  Or.inr ⟨Eq.refl _, le_refl _⟩

theorem closerLE_trans {t : ℚ} {a b c : SequenceCandidate}
    (h1 : CloserLE t a b) (h2 : CloserLE t b c) : CloserLE t a c := by
  rcases h1 with h1 | ⟨h1, h1o⟩ <;> rcases h2 with h2 | ⟨h2, h2o⟩
  · exact Or.inl (lt_trans h1 h2)
  · exact Or.inl (lt_of_lt_of_eq h1 h2)
  · exact Or.inl (lt_of_eq_of_lt h1 h2)
  · exact Or.inr ⟨h1.trans h2, h1o.trans h2o⟩

theorem closerCandidate_le_left (t : ℚ) (a b : SequenceCandidate) :
    CloserLE t (closerCandidate t a b) a := by
  unfold closerCandidate
  split
  · exact Or.inl (by assumption)
  · split
    · next h => exact Or.inr ⟨h.1, le_of_lt h.2⟩
    · exact closerLE_refl t a

theorem closerCandidate_le_right (t : ℚ) (a b : SequenceCandidate) :
    CloserLE t (closerCandidate t a b) b := by
  unfold closerCandidate
  split
  · exact closerLE_refl t b
  · next h1 =>
    split
    · exact closerLE_refl t b
    · next h2 =>
      rcases lt_trichotomy (|a.nodeord - t|) (|b.nodeord - t|) with h | h | h
      · exact Or.inl h
      · refine Or.inr ⟨h, ?_⟩
        by_contra hord
        exact h2 ⟨h.symm, lt_of_not_le hord⟩
      · exact absurd h (not_lt.mpr (le_of_not_lt h1))

theorem closerCandidate_eq_or (t : ℚ) (a b : SequenceCandidate) :
    closerCandidate t a b = a ∨ closerCandidate t a b = b := by
  unfold closerCandidate
  split
  · exact Or.inr rfl
  · split
    · exact Or.inr rfl
    · exact Or.inl rfl

theorem foldl_closerCandidate_spec (t : ℚ) (l : List SequenceCandidate) :
    ∀ acc : SequenceCandidate,
      (l.foldl (closerCandidate t) acc = acc ∨ l.foldl (closerCandidate t) acc ∈ l) ∧
      CloserLE t (l.foldl (closerCandidate t) acc) acc ∧
      ∀ c ∈ l, CloserLE t (l.foldl (closerCandidate t) acc) c := by
  induction l with
  | nil => exact fun acc => ⟨Or.inl rfl, closerLE_refl t acc, fun c hc => absurd hc (List.not_mem_nil c)⟩
  | cons h rest ih =>
    intro acc
    simp only [List.foldl_cons]
    obtain ⟨hmem, hacc', hall⟩ := ih (closerCandidate t acc h)
    refine ⟨?_, ?_, ?_⟩
    · rcases hmem with he | hm
      · rcases closerCandidate_eq_or t acc h with h1 | h1
        · exact Or.inl (he.trans h1)
        · refine Or.inr ?_
          rw [he, h1]
          exact List.mem_cons_self _ _
      · exact Or.inr (List.mem_cons_of_mem _ hm)
    · exact closerLE_trans hacc' (closerCandidate_le_left t acc h)
    · intro c hc
      rcases List.mem_cons.mp hc with hch | hc'
      · rw [hch]
        exact closerLE_trans hacc' (closerCandidate_le_right t acc h)
      · exact hall c hc'

/-- **C5.** For a valid query (non-empty trimmed node id not in the
always-upward list, candidates present — the order is always finite at type
`ℚ`), `resolveDirection` returns the direction derived from a winning
candidate `w` of the scoped pool such that: if the pool has an exact order
match then `w` matches the target order exactly; otherwise `w` minimises
`|order - target|` over the pool with ties broken toward the smaller order;
the returned code is `w`'s fallback direction when `w`'s route is not
mixed-direction and a fallback exists, else `w`'s own direction code
(`0 = DOWN`, `1 = UP`). -/
theorem resolveDirection_spec (alwaysUpward : List String) (lookup : DirectionLookup)
    (s : String) (nodeord : ℚ) (routeid : Option String)
    (candidates : List SequenceCandidate)
    (htrim : jsTrim s ≠ "")
    (hup : alwaysUpward.contains (jsTrim s) = false)
    (hcand : mapGet lookup.sequenceMap (jsTrim s) = some candidates)
    (hne : candidates ≠ []) :
    ∃ w ∈ scopedPool lookup candidates routeid,
      ((∃ c ∈ scopedPool lookup candidates routeid, c.nodeord = nodeord) →
        w.nodeord = nodeord) ∧
      ((¬ ∃ c ∈ scopedPool lookup candidates routeid, c.nodeord = nodeord) →
        ∀ c ∈ scopedPool lookup candidates routeid,
          |w.nodeord - nodeord| ≤ |c.nodeord - nodeord| ∧
          (|w.nodeord - nodeord| = |c.nodeord - nodeord| → w.nodeord ≤ c.nodeord)) ∧
      resolveDirection alwaysUpward lookup (some s) nodeord routeid =
        candidateDirection lookup w := by
  have hpool : scopedPool lookup candidates routeid ≠ [] := by
    unfold scopedPool
    simp only
    split
    · next h =>
      intro hcon
      rw [hcon] at h
      simp at h
    · exact hne
  obtain ⟨p0, rest, hps⟩ := List.exists_cons_of_ne_nil hpool
  rw [hps]
  have hres : resolveDirection alwaysUpward lookup (some s) nodeord routeid =
      candidateDirection lookup (((p0 :: rest).find? (fun c => c.nodeord == nodeord)).getD
        ((p0 :: rest).foldl (closerCandidate nodeord) p0)) := by
    unfold resolveDirection
    simp only
    rw [if_neg htrim, if_neg (by rw [hup]; exact Bool.false_ne_true), hcand]
    simp only
    rw [if_neg (by simp [hne]), hps]
  rcases hfind : (p0 :: rest).find? (fun c => c.nodeord == nodeord) with _ | w
  · -- no exact match: the reduce-based minimiser wins
    have hnoex : ∀ c ∈ p0 :: rest, ¬ (c.nodeord = nodeord) := by
      intro c hc
      have h := List.find?_eq_none.mp hfind c hc
      simpa using h
    obtain ⟨hmem, -, hall⟩ := foldl_closerCandidate_spec nodeord (p0 :: rest) p0
    refine ⟨(p0 :: rest).foldl (closerCandidate nodeord) p0, ?_, ?_, ?_, ?_⟩
    · rcases hmem with he | hm
      · rw [he]
        exact List.mem_cons_self _ _
      · exact hm
    · rintro ⟨c, hc, hceq⟩
      exact absurd hceq (hnoex c hc)
    · intro _ c hc
      rcases hall c hc with hlt | ⟨heq, hord⟩
      · exact ⟨le_of_lt hlt, fun h => absurd h (ne_of_lt hlt)⟩
      · exact ⟨le_of_eq heq, fun _ => hord⟩
    · rw [hres, hfind]
      rfl
  · -- exact match found by `find?`
    have hwmem : w ∈ p0 :: rest := List.mem_of_find?_eq_some hfind
    have hweq : w.nodeord = nodeord := by
      have h := List.find?_some hfind
      simpa using h
    refine ⟨w, hwmem, fun _ => hweq, ?_, ?_⟩
    · intro hnoex
      exact absurd ⟨w, hwmem, hweq⟩ hnoex
    · rw [hres, hfind]
      rfl

/-- Concrete lookup for the C5 witness: node `"N1"` appears in route `r1`
(order 3, down) and route `r2` (order 5, up); both routes mixed-direction,
no fallback entries, both active. -/
def c5Lookup : DirectionLookup :=
  { sequenceMap := [("N1", [⟨"r1", 3, 0⟩, ⟨"r2", 5, 1⟩])],
    routeMixedDirMap := [("r1", true), ("r2", true)],
    fallbackDirMap := [],
    activeRouteIds := ["r1", "r2"] }

/-- Concrete evaluation of `resolveDirection_spec`: querying node `"N1"`
with target order 4 (no exact match; orders 3 and 5 tie at distance 1, the
tie resolving to the smaller order 3), discharging every hypothesis. -/
theorem resolveDirection_spec_witness :
    jsTrim "N1" ≠ "" ∧
    ([] : List String).contains (jsTrim "N1") = false ∧
    mapGet c5Lookup.sequenceMap (jsTrim "N1") =
      some [⟨"r1", 3, 0⟩, ⟨"r2", 5, 1⟩] ∧
    ([⟨"r1", 3, 0⟩, ⟨"r2", 5, 1⟩] : List SequenceCandidate) ≠ [] ∧
    (∃ w ∈ scopedPool c5Lookup [⟨"r1", 3, 0⟩, ⟨"r2", 5, 1⟩] none,
      ((∃ c ∈ scopedPool c5Lookup [⟨"r1", 3, 0⟩, ⟨"r2", 5, 1⟩] none, c.nodeord = 4) →
        w.nodeord = 4) ∧
      ((¬ ∃ c ∈ scopedPool c5Lookup [⟨"r1", 3, 0⟩, ⟨"r2", 5, 1⟩] none, c.nodeord = 4) →
        ∀ c ∈ scopedPool c5Lookup [⟨"r1", 3, 0⟩, ⟨"r2", 5, 1⟩] none,
          |w.nodeord - 4| ≤ |c.nodeord - 4| ∧
          (|w.nodeord - 4| = |c.nodeord - 4| → w.nodeord ≤ c.nodeord)) ∧
      resolveDirection [] c5Lookup (some "N1") 4 none = candidateDirection c5Lookup w) :=
  ⟨by decide, by decide, by rfl, by simp,
    resolveDirection_spec [] c5Lookup "N1" 4 none [⟨"r1", 3, 0⟩, ⟨"r2", 5, 1⟩]
      (by decide) (by decide) (by rfl) (by simp)⟩

/-! ## The fetch cache (src/Vision/src/core/cache/CacheManager.ts)

JS `Map`s are association lists in insertion order; `Map.size` is the list
length (keys are kept unique).  The stored type `T` is modelled as
`Option α`, so that a stored JS `null` (`none`) — as in the polyline cache
`CacheManager<GeoPolyline | null>` — is distinguishable from an absent key. -/

/-- The key list of an association map, in iteration order. -/
def mapKeys {K V : Type} (m : List (K × V)) : List K := m.map Prod.fst

/-- JS `Map.set`: overwrite the first matching key in place (keeping its
position in iteration order), else append at the end. -/
def mapSet {K V : Type} [BEq K] : List (K × V) → K → V → List (K × V)
  | [], k, v => [(k, v)]
  | p :: rest, k, v => if p.1 == k then (k, v) :: rest else p :: mapSet rest k v

/-- JS `Map.delete`: remove the (unique) entry with the given key. -/
def mapDel {K V : Type} [BEq K] (m : List (K × V)) (k : K) : List (K × V) :=
  m.filter (fun p => !(p.1 == k))

/-- The state of a `CacheManager<T>` (`T` = `Option α`).  `runs` and
`resolved` are observation-only ghost fields mirroring no source field:
`runs` counts `fetchFn` invocations and `resolved` records each settled
pending promise by its id, so that deduplication and failure propagation can
be stated. -/
structure CacheState (α : Type) where
  cache : List (String × Option α)
  accessTimes : List (String × ℕ)
  pending : List (String × ℕ)
  maxSize : ℕ
  runs : ℕ
  resolved : List (ℕ × Except Unit (Option α))

/-- `new CacheManager(maxSize)` (source default `maxSize = 100`). -/
def CacheState.init (α : Type) (maxSize : ℕ) : CacheState α :=
  { cache := [], accessTimes := [], pending := [], maxSize := maxSize,
    runs := 0, resolved := [] }

/-- `get(key)`: `this.cache.get(key) ?? null`; refreshes the access time
only when the returned value is not `null`.  Returns the value and the
(possibly) updated state. -/
def CacheState.get {α} (st : CacheState α) (key : String) (now : ℕ) :
    Option α × CacheState α :=
  let value := (mapGet st.cache key).getD none
  if value.isSome then
    (value, { st with accessTimes := mapSet st.accessTimes key now })
  else (value, st)

/-- `evictLRU`: `Array.from(this.accessTimes.entries()).reduce(...)` keeps
the first entry with the strictly smallest timestamp (iteration order =
insertion order); on an empty map `reduce` throws a `TypeError`, modelled as
`none`.  The chosen key is removed from all three maps. -/
def CacheState.evictLRU {α} (st : CacheState α) : Option (CacheState α) :=
  match st.accessTimes with
  | [] => none
  | e :: rest =>
    let oldest := rest.foldl (fun o c => if c.2 < o.2 then c else o) e
    some { st with cache := mapDel st.cache oldest.1,
                   accessTimes := mapDel st.accessTimes oldest.1,
                   pending := mapDel st.pending oldest.1 }

/-- `set(key, value)`: evict the least-recently-used entry first when the
cache is full and the key is new (`this.cache.size >= this.maxSize &&
!this.cache.has(key)`); `none` is the `TypeError` thrown inside `evictLRU`
before any mutation. -/
def CacheState.set {α} (st : CacheState α) (key : String) (value : Option α)
    (now : ℕ) : Option (CacheState α) :=
  if st.cache.length ≥ st.maxSize ∧ ¬ (mapGet st.cache key).isSome then
    st.evictLRU.map (fun st' =>
      { st' with cache := mapSet st'.cache key value,
                 accessTimes := mapSet st'.accessTimes key now })
  else
    some { st with cache := mapSet st.cache key value,
                   accessTimes := mapSet st.accessTimes key now }

/-- `has(key)`. -/
def CacheState.has {α} (st : CacheState α) (key : String) : Bool :=
  (mapGet st.cache key).isSome

/-- `delete(key)`. -/
def CacheState.del {α} (st : CacheState α) (key : String) : CacheState α :=
  { st with cache := mapDel st.cache key,
            accessTimes := mapDel st.accessTimes key,
            pending := mapDel st.pending key }

/-- `clear()`. -/
def CacheState.clear {α} (st : CacheState α) : CacheState α :=
  { st with cache := [], accessTimes := [], pending := [] }

/-- `clearExcept(keysToKeep)`: the first loop deletes every cached,
non-kept key from `cache` and `accessTimes`; the second deletes every
non-kept pending key from `pendingRequests`. -/
def CacheState.clearExcept {α} (st : CacheState α) (keysToKeep : List String) :
    CacheState α :=
  let dropKeys := (mapKeys st.cache).filter (fun k => !(keysToKeep.contains k))
  { st with
      cache := st.cache.filter (fun p => keysToKeep.contains p.1),
      accessTimes := st.accessTimes.filter (fun p => !(dropKeys.contains p.1)),
      pending := st.pending.filter (fun p => keysToKeep.contains p.1) }

/-- Outcome of the synchronous prefix of a `getOrFetch` call. -/
inductive FetchResult (α : Type) where
  | hit (value : Option α)
  | joined (pid : ℕ)
  | started (pid : ℕ)
deriving DecidableEq

/-- The synchronous prefix of `getOrFetch(key, fetchFn)`, up to its first
suspension point: a cached key refreshes the access time and returns the
stored value; an in-flight request for the key is joined (same promise id,
no new producer run); otherwise the producer is invoked (counted in the
ghost field `runs`) and registered as pending under the fresh id `pid`
before the suspension. -/
def CacheState.getOrFetchStep {α} (st : CacheState α) (key : String)
    (now pid : ℕ) : FetchResult α × CacheState α :=
  match mapGet st.cache key with
  | some v => (.hit v, { st with accessTimes := mapSet st.accessTimes key now })
  | none =>
    match mapGet st.pending key with
    | some pid' => (.joined pid', st)
    | none =>
      (.started pid,
        { st with pending := mapSet st.pending key pid, runs := st.runs + 1 })

/-- Completion of the pending request for `key`: on success the `.then`
handler caches the value via `set` (if `set` throws, the rejection
propagates but the `.finally` handler still runs); on failure nothing is
cached.  `.finally` removes the pending entry unconditionally, and the
settled outcome is recorded against the pending promise id in the
`resolved` ghost map (every caller holding that id observes this outcome). -/
def CacheState.fetchComplete {α} (st : CacheState α) (key : String)
    (res : Except Unit (Option α)) (now : ℕ) : CacheState α :=
  let st1 : CacheState α :=
    match res with
    | .ok v =>
      match st.set key v now with
      | some st' => st'
      | none => st
    | .error _ => st
  let st2 : CacheState α := { st1 with pending := mapDel st1.pending key }
  match mapGet st.pending key with
  | some pid => { st2 with resolved := mapSet st2.resolved pid res }
  | none => st2

/-- The public operations of `CacheManager`, each carrying its `Date.now()`
reading; a completed `getOrFetch` is its synchronous prefix (`fetchStart`)
followed, after any interleaving, by its completion (`fetchComplete`). -/
inductive CacheOp (α : Type) where
  | get (key : String) (now : ℕ)
  | set (key : String) (value : Option α) (now : ℕ)
  | has (key : String)
  | del (key : String)
  | clear
  | clearExcept (keysToKeep : List String)
  | fetchStart (key : String) (now pid : ℕ)
  | fetchComplete (key : String) (res : Except Unit (Option α)) (now : ℕ)

/-- Run one operation; a `set` that throws (`none`) leaves the caller's
state unchanged: the `TypeError` surfaces before any mutation. -/
def runOp {α} (st : CacheState α) : CacheOp α → CacheState α
  | .get key now => (st.get key now).2
  | .set key value now => (st.set key value now).getD st
  | .has _ => st
  | .del key => st.del key
  | .clear => st.clear
  | .clearExcept keep => st.clearExcept keep
  | .fetchStart key now pid => (st.getOrFetchStep key now pid).2
  | .fetchComplete key res now => st.fetchComplete key res now

/-- Run a sequence of operations from a state. -/
def runOps {α} (st : CacheState α) (ops : List (CacheOp α)) : CacheState α :=
  ops.foldl runOp st

/-! ### Association-map lemmas -/

theorem mapKeys_length {K V : Type} (m : List (K × V)) :
    (mapKeys m).length = m.length := List.length_map m Prod.fst

theorem mapKeys_mapSet {K V : Type} [BEq K] [LawfulBEq K]
    (m : List (K × V)) (k : K) (v : V) :
    mapKeys (mapSet m k v) =
      if k ∈ mapKeys m then mapKeys m else mapKeys m ++ [k] := by
  induction m with
  | nil => simp [mapSet, mapKeys]
  | cons p rest ih =>
    by_cases h : p.1 = k
    · simp [mapSet, mapKeys, h]
    · have hbe : (p.1 == k) = false := beq_eq_false_iff_ne.mpr h
      simp only [mapSet, hbe, Bool.false_eq_true, if_false, mapKeys, List.map_cons] at ih ⊢
      rw [ih]
      by_cases hk : k ∈ rest.map Prod.fst
      · simp [List.mem_cons, hk, (Ne.symm h : k ≠ p.1)]
      · simp [List.mem_cons, hk, (Ne.symm h : k ≠ p.1)]

theorem mapKeys_mapDel {K V : Type} [BEq K] [LawfulBEq K]
    (m : List (K × V)) (k : K) :
    mapKeys (mapDel m k) = (mapKeys m).filter (fun x => !(x == k)) := by
  unfold mapDel mapKeys
  induction m with
  | nil => simp
  | cons p rest ih =>
    by_cases h : p.1 = k
    · simp [List.filter_cons, h, ih]
    · have hbe : (p.1 == k) = false := beq_eq_false_iff_ne.mpr h
      simp [List.filter_cons, hbe, ih]

theorem mapGet_eq_none_iff {K V : Type} [BEq K] [LawfulBEq K]
    (m : List (K × V)) (k : K) :
    mapGet m k = none ↔ k ∉ mapKeys m := by
  unfold mapGet mapKeys
  induction m with
  | nil => simp
  | cons p rest ih =>
    by_cases h : p.1 = k
    · simp [List.find?_cons, h]
    · have hbe : (p.1 == k) = false := beq_eq_false_iff_ne.mpr h
      simp only [List.find?_cons, hbe, List.map_cons, List.mem_cons]
      rw [ih]
      constructor
      · intro hnone hc
        rcases hc with hc | hc
        · exact h hc.symm
        · exact hnone hc
      · intro hnot hc
        exact hnot (Or.inr hc)

theorem mapGet_isSome_iff {K V : Type} [BEq K] [LawfulBEq K]
    (m : List (K × V)) (k : K) :
    (mapGet m k).isSome = true ↔ k ∈ mapKeys m := by
  constructor
  · intro h
    by_contra hk
    rw [(mapGet_eq_none_iff m k).mpr hk] at h
    simp at h
  · intro hk
    rcases ho : mapGet m k with _ | v
    · exact absurd ((mapGet_eq_none_iff m k).mp ho) (not_not_intro hk)
    · rfl

theorem mapGet_mapSet_self {K V : Type} [BEq K] [LawfulBEq K]
    (m : List (K × V)) (k : K) (v : V) :
    mapGet (mapSet m k v) k = some v := by
  induction m with
  | nil => simp [mapSet, mapGet]
  | cons p rest ih =>
    by_cases h : p.1 = k
    · simp [mapSet, mapGet, h]
    · have hbe : (p.1 == k) = false := beq_eq_false_iff_ne.mpr h
      simp only [mapSet, hbe, Bool.false_eq_true, if_false]
      unfold mapGet at ih ⊢
      simp [List.find?_cons, hbe, ih]

theorem mapGet_mapDel_self {K V : Type} [BEq K] [LawfulBEq K]
    (m : List (K × V)) (k : K) :
    mapGet (mapDel m k) k = none := by
  rw [mapGet_eq_none_iff, mapKeys_mapDel]
  simp

theorem mapDel_eq_self {K V : Type} [BEq K] [LawfulBEq K]
    (m : List (K × V)) (k : K) (hk : k ∉ mapKeys m) :
    mapDel m k = m := by
  unfold mapDel
  refine List.filter_eq_self.mpr ?_
  intro p hp
  have : p.1 ∈ mapKeys m := List.mem_map_of_mem Prod.fst hp
  have hne : p.1 ≠ k := fun he => hk (he ▸ this)
  simp [hne]

theorem mapDel_length_mem {K V : Type} [BEq K] [LawfulBEq K]
    (m : List (K × V)) (k : K) (hnd : (mapKeys m).Nodup) (hk : k ∈ mapKeys m) :
    (mapDel m k).length + 1 = m.length := by
  induction m with
  | nil => simp [mapKeys] at hk
  | cons p rest ih =>
    simp only [mapKeys, List.map_cons, List.nodup_cons] at hnd
    simp only [mapKeys, List.map_cons, List.mem_cons] at hk
    by_cases h : p.1 = k
    · -- the head is removed; `k` does not occur in the tail, so it is kept
      have hout : k ∉ mapKeys rest := h ▸ hnd.1
      have hbe : (p.1 == k) = true := beq_iff_eq.mpr h
      have hkeep : mapDel rest k = rest := mapDel_eq_self rest k hout
      simp only [mapDel, List.filter_cons, hbe, Bool.not_true, Bool.false_eq_true, if_false]
      unfold mapDel at hkeep
      rw [hkeep]
      simp
    · have hbe : (p.1 == k) = false := beq_eq_false_iff_ne.mpr h
      have hk' : k ∈ mapKeys rest := by
        rcases hk with hc | hc
        · exact absurd hc.symm h
        · exact hc
      have hrec := ih hnd.2 hk'
      simp only [mapDel, List.filter_cons, hbe, Bool.not_false, if_true, List.length_cons]
      unfold mapDel at hrec
      omega

theorem mapSet_length_notmem {K V : Type} [BEq K] [LawfulBEq K]
    (m : List (K × V)) (k : K) (v : V) (hk : k ∉ mapKeys m) :
    (mapSet m k v).length = m.length + 1 := by
  have h := congrArg List.length (mapKeys_mapSet m k v)
  rw [if_neg hk] at h
  simpa [mapKeys_length] using h

theorem mapSet_length_mem {K V : Type} [BEq K] [LawfulBEq K]
    (m : List (K × V)) (k : K) (v : V) (hk : k ∈ mapKeys m) :
    (mapSet m k v).length = m.length := by
  have h := congrArg List.length (mapKeys_mapSet m k v)
  rw [if_pos hk] at h
  simpa [mapKeys_length] using h

theorem mem_mapKeys_of_mapDel {K V : Type} [BEq K] [LawfulBEq K]
    (m : List (K × V)) (o k : K) (h : k ∈ mapKeys (mapDel m o)) : k ∈ mapKeys m := by
  rw [mapKeys_mapDel] at h
  exact (List.mem_filter.mp h).1

theorem mapKeys_filter_fst {K V : Type} (m : List (K × V)) (p : K → Bool) :
    mapKeys (m.filter (fun q => p q.1)) = (mapKeys m).filter p := by
  unfold mapKeys
  induction m with
  | nil => rfl
  | cons q rest ih =>
    by_cases h : p q.1 = true <;> simp [List.filter_cons, h, ih]

/-! ### The LRU eviction fold -/

theorem foldl_oldest_mem (l : List (String × ℕ)) :
    ∀ acc : String × ℕ,
      l.foldl (fun o c => if c.2 < o.2 then c else o) acc = acc ∨
      l.foldl (fun o c => if c.2 < o.2 then c else o) acc ∈ l := by
  induction l with
  | nil => exact fun _ => Or.inl rfl
  | cons h rest ih =>
    intro acc
    simp only [List.foldl_cons]
    rcases ih (if h.2 < acc.2 then h else acc) with he | hm
    · rw [he]
      split
      · exact Or.inr (List.mem_cons_self _ _)
      · exact Or.inl rfl
    · exact Or.inr (List.mem_cons_of_mem _ hm)

theorem foldl_oldest_min (l : List (String × ℕ)) :
    ∀ (acc p : String × ℕ), (p = acc ∨ p ∈ l) →
      (l.foldl (fun o c => if c.2 < o.2 then c else o) acc).2 ≤ p.2 := by
  induction l with
  | nil =>
    intro acc p hp
    rcases hp with rfl | hm
    · exact le_refl _
    · exact absurd hm (List.not_mem_nil p)
  | cons h rest ih =>
    intro acc p hp
    simp only [List.foldl_cons]
    have hacc : (if h.2 < acc.2 then h else acc).2 ≤ acc.2 := by
      split
      · next hlt => exact le_of_lt hlt
      · exact le_refl _
    have hh : (if h.2 < acc.2 then h else acc).2 ≤ h.2 := by
      split
      · exact le_refl _
      · next hnlt => exact le_of_not_lt hnlt
    rcases hp with rfl | hm
    · exact le_trans (ih _ _ (Or.inl rfl)) hacc
    · rcases List.mem_cons.mp hm with rfl | hm'
      · exact le_trans (ih _ _ (Or.inl rfl)) hh
      · exact ih _ p (Or.inr hm')

/-! ### The cache invariant (C7) -/

/-- Invariant of every reachable cache state: unique cache keys, the
access-time map holding exactly the cache's keys in the same order, and the
size bound.  Pending requests are tracked separately and never counted. -/
def CacheInv {α : Type} (st : CacheState α) : Prop :=
  (mapKeys st.cache).Nodup ∧
  mapKeys st.accessTimes = mapKeys st.cache ∧
  st.cache.length ≤ st.maxSize

theorem get_inv {α} (st : CacheState α) (key : String) (now : ℕ)
    (h : CacheInv st) : CacheInv (st.get key now).2 := by
  obtain ⟨hnd, hkeys, hlen⟩ := h
  unfold CacheState.get
  simp only
  split
  · next hsome =>
    refine ⟨hnd, ?_, hlen⟩
    have hkmem : key ∈ mapKeys st.cache := by
      rw [← mapGet_isSome_iff]
      rcases ho : mapGet st.cache key with _ | v
      · rw [ho] at hsome
        simp at hsome
      · rfl
    rw [mapKeys_mapSet, hkeys, if_pos hkmem]
  · exact ⟨hnd, hkeys, hlen⟩

theorem set_inv {α} (st : CacheState α) (key : String) (value : Option α)
    (now : ℕ) (h : CacheInv st) : CacheInv ((st.set key value now).getD st) := by
  obtain ⟨hnd, hkeys, hlen⟩ := h
  unfold CacheState.set
  split
  · next hguard =>
    obtain ⟨hfull, hnew⟩ := hguard
    have hknotin : key ∉ mapKeys st.cache := fun hmem =>
      hnew ((mapGet_isSome_iff _ _).mpr hmem)
    unfold CacheState.evictLRU
    rcases hat : st.accessTimes with _ | ⟨e, rest⟩
    · exact ⟨hnd, hkeys, hlen⟩
    · rw [hat] at hkeys
      simp only [Option.map_some', Option.getD_some]
      have homem : (rest.foldl (fun o c => if c.2 < o.2 then c else o) e) = e ∨
          (rest.foldl (fun o c => if c.2 < o.2 then c else o) e) ∈ rest :=
        foldl_oldest_mem rest e
      set oldest := rest.foldl (fun o c => if c.2 < o.2 then c else o) e with hold
      have hoin : oldest ∈ e :: rest := by
        rcases homem with he | hm
        · rw [he]
          exact List.mem_cons_self _ _
        · exact List.mem_cons_of_mem _ hm
      have hocache : oldest.1 ∈ mapKeys st.cache := by
        rw [← hkeys]
        exact List.mem_map_of_mem Prod.fst hoin
      have hkeysdel : mapKeys (mapDel (e :: rest) oldest.1) =
          mapKeys (mapDel st.cache oldest.1) := by
        rw [mapKeys_mapDel, mapKeys_mapDel, hkeys]
      have hnddel : (mapKeys (mapDel st.cache oldest.1)).Nodup := by
        rw [mapKeys_mapDel]
        exact hnd.filter _
      have hkdel : key ∉ mapKeys (mapDel st.cache oldest.1) := fun hmem =>
        hknotin (mem_mapKeys_of_mapDel _ _ _ hmem)
      have hkdelA : key ∉ mapKeys (mapDel (e :: rest) oldest.1) := by
        rw [hkeysdel]
        exact hkdel
      refine ⟨?_, ?_, ?_⟩
      · show (mapKeys (mapSet (mapDel st.cache oldest.1) key value)).Nodup
        rw [mapKeys_mapSet, if_neg hkdel]
        refine List.Nodup.append hnddel (List.nodup_singleton key) ?_
        intro x hx hx'
        rw [List.mem_singleton] at hx'
        exact hkdel (hx' ▸ hx)
      · show mapKeys (mapSet (mapDel (e :: rest) oldest.1) key now) =
          mapKeys (mapSet (mapDel st.cache oldest.1) key value)
        rw [mapKeys_mapSet, mapKeys_mapSet, if_neg hkdelA, if_neg hkdel, hkeysdel]
      · show (mapSet (mapDel st.cache oldest.1) key value).length ≤ st.maxSize
        have hlen1 : (mapDel st.cache oldest.1).length + 1 = st.cache.length :=
          mapDel_length_mem st.cache oldest.1 hnd hocache
        rw [mapSet_length_notmem _ _ _ hkdel]
        omega
  · next hguard =>
    simp only [Option.getD_some]
    by_cases hkmem : key ∈ mapKeys st.cache
    · have hkmemA : key ∈ mapKeys st.accessTimes := by
        rw [hkeys]
        exact hkmem
      refine ⟨?_, ?_, ?_⟩
      · show (mapKeys (mapSet st.cache key value)).Nodup
        rw [mapKeys_mapSet, if_pos hkmem]
        exact hnd
      · show mapKeys (mapSet st.accessTimes key now) = mapKeys (mapSet st.cache key value)
        rw [mapKeys_mapSet, mapKeys_mapSet, if_pos hkmemA, if_pos hkmem, hkeys]
      · show (mapSet st.cache key value).length ≤ st.maxSize
        rw [mapSet_length_mem _ _ _ hkmem]
        exact hlen
    · have hnew : ¬ (mapGet st.cache key).isSome = true := fun hs =>
        hkmem ((mapGet_isSome_iff _ _).mp hs)
      have hnotfull : st.cache.length < st.maxSize := by
        by_contra hge
        exact hguard ⟨le_of_not_lt hge, hnew⟩
      have hkmemA : key ∉ mapKeys st.accessTimes := by
        rw [hkeys]
        exact hkmem
      refine ⟨?_, ?_, ?_⟩
      · show (mapKeys (mapSet st.cache key value)).Nodup
        rw [mapKeys_mapSet, if_neg hkmem]
        refine List.Nodup.append hnd (List.nodup_singleton key) ?_
        intro x hx hx'
        rw [List.mem_singleton] at hx'
        exact hkmem (hx' ▸ hx)
      · show mapKeys (mapSet st.accessTimes key now) = mapKeys (mapSet st.cache key value)
        rw [mapKeys_mapSet, mapKeys_mapSet, if_neg hkmemA, if_neg hkmem, hkeys]
      · show (mapSet st.cache key value).length ≤ st.maxSize
        rw [mapSet_length_notmem _ _ _ hkmem]
        omega

theorem contains_true_iff {K : Type} [BEq K] [LawfulBEq K] (l : List K) (a : K) :
    (l.contains a = true) ↔ a ∈ l := by
  simp [List.contains]

theorem del_inv {α} (st : CacheState α) (key : String) (h : CacheInv st) :
    CacheInv (st.del key) := by
  obtain ⟨hnd, hkeys, hlen⟩ := h
  refine ⟨?_, ?_, ?_⟩
  · show (mapKeys (mapDel st.cache key)).Nodup
    rw [mapKeys_mapDel]
    exact hnd.filter _
  · show mapKeys (mapDel st.accessTimes key) = mapKeys (mapDel st.cache key)
    rw [mapKeys_mapDel, mapKeys_mapDel, hkeys]
  · show (mapDel st.cache key).length ≤ st.maxSize
    exact le_trans (List.length_filter_le _ _) hlen

theorem clear_inv {α} (st : CacheState α) : CacheInv st.clear :=
  ⟨List.nodup_nil, rfl, Nat.zero_le _⟩

theorem clearExcept_inv {α} (st : CacheState α) (keep : List String)
    (h : CacheInv st) : CacheInv (st.clearExcept keep) := by
  obtain ⟨hnd, hkeys, hlen⟩ := h
  unfold CacheState.clearExcept
  simp only
  refine ⟨?_, ?_, ?_⟩
  · show (mapKeys (st.cache.filter (fun p => keep.contains p.1))).Nodup
    rw [mapKeys_filter_fst]
    exact hnd.filter _
  · show mapKeys (st.accessTimes.filter
      (fun p => !(((mapKeys st.cache).filter (fun k => !(keep.contains k))).contains p.1))) =
      mapKeys (st.cache.filter (fun p => keep.contains p.1))
    rw [mapKeys_filter_fst st.accessTimes
        (fun k => !(((mapKeys st.cache).filter (fun k => !(keep.contains k))).contains k)),
      mapKeys_filter_fst st.cache (fun k => keep.contains k), hkeys]
    refine List.filter_congr ?_
    intro x hx
    cases hk : keep.contains x with
    | true =>
      have hdc : ((mapKeys st.cache).filter (fun k => !(keep.contains k))).contains x = false := by
        cases hdc : ((mapKeys st.cache).filter (fun k => !(keep.contains k))).contains x with
        | false => rfl
        | true =>
          have hmem := (contains_true_iff _ _).mp hdc
          have h2 := (List.mem_filter.mp hmem).2
          rw [hk] at h2
          simp at h2
      have hxk : x ∈ keep := (contains_true_iff keep x).mp hk
      simp [hdc, hk, hxk]
    | false =>
      have hmem : x ∈ (mapKeys st.cache).filter (fun k => !(keep.contains k)) :=
        List.mem_filter.mpr ⟨hx, by rw [hk]; rfl⟩
      have hdc := (contains_true_iff _ _).mpr hmem
      have hxk : x ∉ keep := by
        intro hmem'
        have hc := (contains_true_iff keep x).mpr hmem'
        rw [hk] at hc
        exact absurd hc (by decide)
      simp [hdc, hk, hx, hxk]
  · show (st.cache.filter (fun p => keep.contains p.1)).length ≤ st.maxSize
    exact le_trans (List.length_filter_le _ _) hlen

theorem getOrFetchStep_inv {α} (st : CacheState α) (key : String) (now pid : ℕ)
    (h : CacheInv st) : CacheInv (st.getOrFetchStep key now pid).2 := by
  obtain ⟨hnd, hkeys, hlen⟩ := h
  unfold CacheState.getOrFetchStep
  rcases hc : mapGet st.cache key with _ | v
  · rcases hp : mapGet st.pending key with _ | pid'
    · exact ⟨hnd, hkeys, hlen⟩
    · exact ⟨hnd, hkeys, hlen⟩
  · have hkmem : key ∈ mapKeys st.cache := by
      rw [← mapGet_isSome_iff, hc]
      rfl
    refine ⟨hnd, ?_, hlen⟩
    show mapKeys (mapSet st.accessTimes key now) = mapKeys st.cache
    rw [mapKeys_mapSet, hkeys, if_pos hkmem]

theorem fetchComplete_inv {α} (st : CacheState α) (key : String)
    (res : Except Unit (Option α)) (now : ℕ) (h : CacheInv st) :
    CacheInv (st.fetchComplete key res now) := by
  unfold CacheState.fetchComplete
  rcases res with e | v
  · rcases hp : mapGet st.pending key with _ | pid <;>
      exact ⟨h.1, h.2.1, h.2.2⟩
  · simp only
    have hs := set_inv st key v now h
    rcases hset : st.set key v now with _ | st'
    · rcases hp : mapGet st.pending key with _ | pid <;>
        exact ⟨h.1, h.2.1, h.2.2⟩
    · rw [hset] at hs
      simp only [Option.getD_some] at hs
      rcases hp : mapGet st.pending key with _ | pid <;>
        exact ⟨hs.1, hs.2.1, hs.2.2⟩

theorem runOp_inv {α} (st : CacheState α) (op : CacheOp α) (h : CacheInv st) :
    CacheInv (runOp st op) := by
  cases op with
  | get key now => exact get_inv st key now h
  | set key value now => exact set_inv st key value now h
  | has key => exact h
  | del key => exact del_inv st key h
  | clear => exact clear_inv st
  | clearExcept keep => exact clearExcept_inv st keep h
  | fetchStart key now pid => exact getOrFetchStep_inv st key now pid h
  | fetchComplete key res now => exact fetchComplete_inv st key res now h

theorem runOps_inv {α} (ops : List (CacheOp α)) :
    ∀ st : CacheState α, CacheInv st → CacheInv (runOps st ops) := by
  induction ops with
  | nil => exact fun _ h => h
  | cons op rest ih =>
    intro st h
    exact ih (runOp st op) (runOp_inv st op h)

theorem get_maxSize {α} (st : CacheState α) (key : String) (now : ℕ) :
    (st.get key now).2.maxSize = st.maxSize := by
  unfold CacheState.get
  simp only
  split <;> rfl

theorem set_maxSize {α} (st : CacheState α) (key : String) (value : Option α)
    (now : ℕ) : ((st.set key value now).getD st).maxSize = st.maxSize := by
  unfold CacheState.set CacheState.evictLRU
  split
  · rcases st.accessTimes with _ | ⟨e, rest⟩
    · rfl
    · rfl
  · rfl

theorem getOrFetchStep_maxSize {α} (st : CacheState α) (key : String)
    (now pid : ℕ) : (st.getOrFetchStep key now pid).2.maxSize = st.maxSize := by
  unfold CacheState.getOrFetchStep
  rcases mapGet st.cache key with _ | v
  · rcases mapGet st.pending key with _ | pid' <;> rfl
  · rfl

theorem fetchComplete_maxSize {α} (st : CacheState α) (key : String)
    (res : Except Unit (Option α)) (now : ℕ) :
    (st.fetchComplete key res now).maxSize = st.maxSize := by
  unfold CacheState.fetchComplete
  rcases res with e | v
  · rcases mapGet st.pending key with _ | pid <;> rfl
  · simp only
    have hms := set_maxSize st key v now
    rcases hset : st.set key v now with _ | st'
    · rcases mapGet st.pending key with _ | pid <;> rfl
    · rw [hset] at hms
      simp only [Option.getD_some] at hms
      rcases mapGet st.pending key with _ | pid <;> exact hms

theorem runOp_maxSize {α} (st : CacheState α) (op : CacheOp α) :
    (runOp st op).maxSize = st.maxSize := by
  cases op with
  | get key now => exact get_maxSize st key now
  | set key value now => exact set_maxSize st key value now
  | has key => rfl
  | del key => rfl
  | clear => rfl
  | clearExcept keep => rfl
  | fetchStart key now pid => exact getOrFetchStep_maxSize st key now pid
  | fetchComplete key res now => exact fetchComplete_maxSize st key res now

theorem runOps_maxSize {α} (ops : List (CacheOp α)) :
    ∀ st : CacheState α, (runOps st ops).maxSize = st.maxSize := by
  induction ops with
  | nil => exact fun _ => rfl
  | cons op rest ih =>
    intro st
    exact (ih (runOp st op)).trans (runOp_maxSize st op)

/-- **C7.** Starting from a fresh `CacheManager` with the given `maxSize`,
after any sequence of operations (`get`, `set`, `has`, `delete`, `clear`,
`clearExcept`, and `getOrFetch` starts/completions in any interleaving) the
number of stored cache entries never exceeds `maxSize`; pending in-flight
requests live in the separate `pending` map and never count toward the
size. -/
theorem cacheManager_size_bounded (α : Type) (maxSize : ℕ) (ops : List (CacheOp α)) :
    (runOps (CacheState.init α maxSize) ops).cache.length ≤ maxSize := by
  have hinv := runOps_inv ops (CacheState.init α maxSize)
    ⟨List.nodup_nil, rfl, Nat.zero_le _⟩
  have hms : (runOps (CacheState.init α maxSize) ops).maxSize = maxSize :=
    runOps_maxSize ops (CacheState.init α maxSize)
  exact le_trans hinv.2.2 (le_of_eq hms)

/-- **C6.** `set(key, value)` at capacity with a new key first evicts an
entry carrying the minimal last-access timestamp (the first such in
iteration order, removed from all maps exactly as `delete`), then inserts
the new entry; in particular with `maxSize = 2`, after `set("a",1)`,
`set("b",2)`, `get("a")`, `set("c",3)` the key `"b"` is evicted while `"a"`
and `"c"` remain. -/
theorem set_evicts_lru {α} (st : CacheState α) (key : String) (value : Option α)
    (now : ℕ) (hfull : st.cache.length ≥ st.maxSize)
    (hnew : ¬ (mapGet st.cache key).isSome = true)
    (hne : st.accessTimes ≠ []) :
    (∃ oldest : String × ℕ, oldest ∈ st.accessTimes ∧
      (∀ p ∈ st.accessTimes, oldest.2 ≤ p.2) ∧
      st.set key value now = some
        { st.del oldest.1 with
            cache := mapSet (st.del oldest.1).cache key value,
            accessTimes := mapSet (st.del oldest.1).accessTimes key now }) ∧
    mapKeys (runOps (CacheState.init ℕ 2)
      [.set "a" (some 1) 0, .set "b" (some 2) 1, .get "a" 2, .set "c" (some 3) 3]).cache =
      ["a", "c"] := by
  constructor
  · obtain ⟨e, rest, hat⟩ := List.exists_cons_of_ne_nil hne
    refine ⟨rest.foldl (fun o c => if c.2 < o.2 then c else o) e, ?_, ?_, ?_⟩
    · rw [hat]
      rcases foldl_oldest_mem rest e with he | hm
      · rw [he]
        exact List.mem_cons_self _ _
      · exact List.mem_cons_of_mem _ hm
    · intro p hp
      rw [hat] at hp
      rcases List.mem_cons.mp hp with he | hp'
      · rw [he]
        exact foldl_oldest_min rest e e (Or.inl rfl)
      · exact foldl_oldest_min rest e p (Or.inr hp')
    · have hev : st.evictLRU =
          some (st.del (rest.foldl (fun o c => if c.2 < o.2 then c else o) e).1) := by
        unfold CacheState.evictLRU
        rw [hat]
        simp only
        rw [← hat]
        rfl
      unfold CacheState.set
      rw [if_pos ⟨hfull, hnew⟩, hev]
      rfl
  · decide

/-- The cache state just before the eviction step of the C6 scenario:
`set("a",1)` at time 0, `set("b",2)` at time 1, `get("a")` at time 2. -/
def c6Pre : CacheState ℕ :=
  runOps (CacheState.init ℕ 2) [.set "a" (some 1) 0, .set "b" (some 2) 1, .get "a" 2]

/-- Concrete evaluation of `set_evicts_lru` at the C6 scenario's eviction
step (`set("c",3)` on a full cache), discharging every hypothesis. -/
theorem set_evicts_lru_witness :
    c6Pre.cache.length ≥ c6Pre.maxSize ∧
    ¬ (mapGet c6Pre.cache "c").isSome = true ∧
    c6Pre.accessTimes ≠ [] ∧
    ((∃ oldest : String × ℕ, oldest ∈ c6Pre.accessTimes ∧
      (∀ p ∈ c6Pre.accessTimes, oldest.2 ≤ p.2) ∧
      c6Pre.set "c" (some 3) 3 = some
        { c6Pre.del oldest.1 with
            cache := mapSet (c6Pre.del oldest.1).cache "c" (some 3),
            accessTimes := mapSet (c6Pre.del oldest.1).accessTimes "c" 3 }) ∧
    mapKeys (runOps (CacheState.init ℕ 2)
      [.set "a" (some 1) 0, .set "b" (some 2) 1, .get "a" 2, .set "c" (some 3) 3]).cache =
      ["a", "c"]) :=
  ⟨by decide, by decide, by decide,
    set_evicts_lru c6Pre "c" (some 3) 3 (by decide) (by decide) (by decide)⟩

/-- **C8.** Deduplication of concurrent `getOrFetch` calls: with `key`
uncached and no in-flight request, the first call starts the producer (one
`runs` increment) and registers promise `pid`; a second call before
completion joins the same promise `pid` without another producer run; and
settling that promise with a value records the same value for every caller
holding `pid`. -/
theorem getOrFetch_dedup {α} (st : CacheState α) (key : String)
    (now1 now2 now3 pid pid2 : ℕ) (v : Option α)
    (hmiss : mapGet st.cache key = none)
    (hnopending : mapGet st.pending key = none) :
    (st.getOrFetchStep key now1 pid).1 = .started pid ∧
    ((st.getOrFetchStep key now1 pid).2.getOrFetchStep key now2 pid2).1 = .joined pid ∧
    ((st.getOrFetchStep key now1 pid).2.getOrFetchStep key now2 pid2).2.runs = st.runs + 1 ∧
    mapGet ((((st.getOrFetchStep key now1 pid).2.getOrFetchStep key now2 pid2).2.fetchComplete
      key (.ok v) now3).resolved) pid = some (.ok v) := by
  have hpend : mapGet (mapSet st.pending key pid) key = some pid :=
    mapGet_mapSet_self st.pending key pid
  have h1 : st.getOrFetchStep key now1 pid =
      (.started pid, { st with pending := mapSet st.pending key pid, runs := st.runs + 1 }) := by
    unfold CacheState.getOrFetchStep
    rw [hmiss, hnopending]
  have h2 : ({ st with pending := mapSet st.pending key pid, runs := st.runs + 1 } :
      CacheState α).getOrFetchStep key now2 pid2 =
      (.joined pid, { st with pending := mapSet st.pending key pid, runs := st.runs + 1 }) := by
    unfold CacheState.getOrFetchStep
    simp only
    rw [hmiss, hpend]
  have h3 : mapGet (({ st with pending := mapSet st.pending key pid, runs := st.runs + 1 } :
      CacheState α).fetchComplete key (.ok v) now3).resolved pid = some (.ok v) := by
    unfold CacheState.fetchComplete
    simp only
    rw [hpend]
    rcases ({ st with pending := mapSet st.pending key pid, runs := st.runs + 1 } :
        CacheState α).set key v now3 with _ | st'
    · exact mapGet_mapSet_self _ _ _
    · exact mapGet_mapSet_self _ _ _
  rw [h1]
  exact ⟨rfl, by rw [h2], by rw [h2], by rw [h2]; exact h3⟩

/-- Concrete evaluation of `getOrFetch_dedup` on an empty cache of naturals,
discharging both hypotheses. -/
theorem getOrFetch_dedup_witness :
    mapGet (CacheState.init ℕ 3).cache "k" = none ∧
    mapGet (CacheState.init ℕ 3).pending "k" = none ∧
    (((CacheState.init ℕ 3).getOrFetchStep "k" 0 7).1 = .started 7 ∧
     (((CacheState.init ℕ 3).getOrFetchStep "k" 0 7).2.getOrFetchStep "k" 1 8).1 = .joined 7 ∧
     (((CacheState.init ℕ 3).getOrFetchStep "k" 0 7).2.getOrFetchStep "k" 1 8).2.runs =
       (CacheState.init ℕ 3).runs + 1 ∧
     mapGet (((((CacheState.init ℕ 3).getOrFetchStep "k" 0 7).2.getOrFetchStep "k" 1 8).2.fetchComplete
       "k" (.ok (some 42)) 2).resolved) 7 = some (.ok (some 42))) :=
  ⟨rfl, rfl, getOrFetch_dedup (CacheState.init ℕ 3) "k" 0 1 2 7 8 (some 42) rfl rfl⟩

/-- **C9.** A failing producer: the rejection is recorded on the shared
pending promise (observed by every caller holding it), nothing is stored in
the cache for the key, the pending entry is removed unconditionally, and a
subsequent `getOrFetch` for the key invokes the producer again instead of
observing a cached failure. -/
theorem getOrFetch_failure_retry {α} (st : CacheState α) (key : String)
    (now1 now2 now3 pid pid2 : ℕ)
    (hmiss : mapGet st.cache key = none)
    (hnopending : mapGet st.pending key = none) :
    (st.getOrFetchStep key now1 pid).1 = .started pid ∧
    ((st.getOrFetchStep key now1 pid).2.fetchComplete key (.error ()) now2).cache = st.cache ∧
    mapGet ((st.getOrFetchStep key now1 pid).2.fetchComplete key (.error ()) now2).pending key = none ∧
    mapGet ((st.getOrFetchStep key now1 pid).2.fetchComplete key (.error ()) now2).resolved pid =
      some (.error ()) ∧
    (((st.getOrFetchStep key now1 pid).2.fetchComplete key (.error ()) now2).getOrFetchStep
      key now3 pid2).1 = .started pid2 ∧
    (((st.getOrFetchStep key now1 pid).2.fetchComplete key (.error ()) now2).getOrFetchStep
      key now3 pid2).2.runs =
      ((st.getOrFetchStep key now1 pid).2.fetchComplete key (.error ()) now2).runs + 1 := by
  have hpend : mapGet (mapSet st.pending key pid) key = some pid :=
    mapGet_mapSet_self st.pending key pid
  have h1 : st.getOrFetchStep key now1 pid =
      (.started pid, { st with pending := mapSet st.pending key pid, runs := st.runs + 1 }) := by
    unfold CacheState.getOrFetchStep
    rw [hmiss, hnopending]
  have h2 : ({ st with pending := mapSet st.pending key pid, runs := st.runs + 1 } :
      CacheState α).fetchComplete key (.error ()) now2 =
      { st with
          pending := mapDel (mapSet st.pending key pid) key,
          runs := st.runs + 1,
          resolved := mapSet st.resolved pid (.error ()) } := by
    unfold CacheState.fetchComplete
    simp only
    rw [hpend]
  have h3 : ({ st with
      pending := mapDel (mapSet st.pending key pid) key,
      runs := st.runs + 1,
      resolved := mapSet st.resolved pid (.error ()) } : CacheState α).getOrFetchStep
      key now3 pid2 =
      (.started pid2,
        { st with
            pending := mapSet (mapDel (mapSet st.pending key pid) key) key pid2,
            runs := st.runs + 1 + 1,
            resolved := mapSet st.resolved pid (.error ()) }) := by
    unfold CacheState.getOrFetchStep
    simp only
    rw [hmiss, mapGet_mapDel_self]
  rw [h1]
  simp only
  rw [h2]
  refine ⟨trivial, rfl, ?_, ?_, ?_, ?_⟩
  · exact mapGet_mapDel_self _ _
  · exact mapGet_mapSet_self _ _ _
  · rw [h3]
  · rw [h3]

/-- Concrete evaluation of `getOrFetch_failure_retry` on an empty cache of
naturals, discharging both hypotheses. -/
theorem getOrFetch_failure_retry_witness :
    mapGet (CacheState.init ℕ 3).cache "k" = none ∧
    mapGet (CacheState.init ℕ 3).pending "k" = none ∧
    (((CacheState.init ℕ 3).getOrFetchStep "k" 0 7).2.fetchComplete "k" (.error ()) 1).cache =
      (CacheState.init ℕ 3).cache ∧
    mapGet ((((CacheState.init ℕ 3).getOrFetchStep "k" 0 7).2.fetchComplete "k"
      (.error ()) 1).getOrFetchStep "k" 2 8).2.pending "k" = some 8 := by
  refine ⟨rfl, rfl, ?_, ?_⟩
  · exact (getOrFetch_failure_retry (CacheState.init ℕ 3) "k" 0 1 2 7 8 rfl rfl).2.1
  · decide

/-- **C10.** A stored `null` value (as the polyline cache stores for missing
polylines): `get` returns `null` exactly as for an absent key and does not
refresh the key's access time, `has` returns `true`, and `getOrFetch`
treats the entry as a cache hit, returning the stored `null` (with an
access-time refresh) without invoking the producer. -/
theorem cached_null_value {α} (st : CacheState α) (key : String) (now pid : ℕ)
    (hstored : mapGet st.cache key = some none) :
    (st.get key now).1 = none ∧
    (st.get key now).2 = st ∧
    (∀ k2, mapGet st.cache k2 = none → (st.get k2 now).1 = none ∧ (st.get k2 now).2 = st) ∧
    st.has key = true ∧
    st.getOrFetchStep key now pid =
      (.hit none, { st with accessTimes := mapSet st.accessTimes key now }) := by
  refine ⟨?_, ?_, ?_, ?_, ?_⟩
  · simp [CacheState.get, hstored]
  · simp [CacheState.get, hstored]
  · intro k2 habs
    constructor
    · simp [CacheState.get, habs]
    · simp [CacheState.get, habs]
  · simp [CacheState.has, hstored]
  · simp [CacheState.getOrFetchStep, hstored]

/-- A concrete cache of naturals storing `null` under key `"p"`, as the
polyline cache does for a missing polyline. -/
def c10State : CacheState ℕ :=
  { cache := [("p", none)], accessTimes := [("p", 0)], pending := [],
    maxSize := 5, runs := 0, resolved := [] }

/-- Concrete evaluation of `cached_null_value` on `c10State`, discharging
its hypothesis. -/
theorem cached_null_value_witness :
    mapGet c10State.cache "p" = some none ∧
    ((c10State.get "p" 3).1 = none ∧
     (c10State.get "p" 3).2 = c10State ∧
     (∀ k2, mapGet c10State.cache k2 = none →
       (c10State.get k2 3).1 = none ∧ (c10State.get k2 3).2 = c10State) ∧
     c10State.has "p" = true ∧
     c10State.getOrFetchStep "p" 3 7 =
       (.hit none, { c10State with accessTimes := mapSet c10State.accessTimes "p" 3 })) :=
  ⟨rfl, cached_null_value c10State "p" 3 7 rfl⟩

end WBus
